import Mathlib

/-!
Verification development for the LidarScanSegment wire-decoding subsystem.

The Python sources are embedded shallowly:
* byte strings become `List Nat` (each element is one byte value),
* `int.from_bytes(..., 'little')` becomes `leDecode` on a python-style slice,
* `zlib.crc32` becomes `crc32` (CRC-32/IEEE, reflected, init and xor-out
  `0xFFFFFFFF`, one table-free bit-loop per byte, unrolled eight times),
* the two stream extractors become explicit state machines `MsgSE.process`
  and `CompactSE.process` over their buffer/state/size fields,
* the Compact telegram decoder `compact.py` becomes `Compact.parsePayload`;
  Python exceptions (struct.error, TypeError, KeyError, IndexError) are
  modelled with `Except PyErr`, a function returning `None` is modelled
  with `Option`.
* IEEE-754 float payload values are kept as their raw little-endian bit
  patterns (a `Nat`); no claim below depends on float arithmetic.
-/

namespace Lidar

/-- Python errors that the embedded code can raise.  `fuelErr` is a modelling
artifact used by the one fuelled loop (`Compact.parseModules`); the fuel
passed by `Compact.parsePayload` is provably sufficient, see the comment
there. -/
inductive PyErr
  | structErr
  | typeErr
  | keyErr
  | indexErr
  | fuelErr
deriving DecidableEq, Repr

/-- Python slice `l[off:off+n]` for a byte string (both bounds clamp). -/
def pySlice (l : List Nat) (off n : Nat) : List Nat := (l.drop off).take n

/-- Unsigned little-endian value of a byte string, as in
`int.from_bytes(bs, byteorder='little', signed=False)`. -/
def leDecode : List Nat → Nat
  | [] => 0
  | b :: bs => b + 256 * leDecode bs

/-- Signed little-endian value of a byte string, two's complement over the
actual slice length, as in `int.from_bytes(bs, 'little', signed=True)`. -/
def sintFromLE (bs : List Nat) : Int :=
  if 2 * leDecode bs < 2 ^ (8 * bs.length) then (leDecode bs : Int)
  else (leDecode bs : Int) - 2 ^ (8 * bs.length)

/-- Little-endian encoding of a `Nat` on 4 bytes, as in
`n.to_bytes(4, 'little')`. -/
def le4 (n : Nat) : List Nat :=
  [n % 256, n / 256 % 256, n / 256 ^ 2 % 256, n / 256 ^ 3 % 256]

/-- Little-endian encoding of a `Nat` on 8 bytes, as in
`n.to_bytes(8, 'little')`. -/
def le8 (n : Nat) : List Nat :=
  [n % 256, n / 256 % 256, n / 256 ^ 2 % 256, n / 256 ^ 3 % 256,
   n / 256 ^ 4 % 256, n / 256 ^ 5 % 256, n / 256 ^ 6 % 256, n / 256 ^ 7 % 256]

/-- One bit of the CRC-32 feedback shift register (reflected polynomial
`0xEDB88320`). -/
def crcStep (c : Nat) : Nat := if c % 2 = 1 then (c / 2) ^^^ 0xEDB88320 else c / 2

/-- One byte of CRC-32: xor the byte into the low bits, then shift eight
times (the eight-iteration bit loop is unrolled). -/
def crcByte (c b : Nat) : Nat :=
  crcStep (crcStep (crcStep (crcStep (crcStep (crcStep (crcStep (crcStep (c ^^^ b))))))))

/-- `zlib.crc32` over a byte string. -/
def crc32 (l : List Nat) : Nat := (l.foldl crcByte 0xFFFFFFFF) ^^^ 0xFFFFFFFF

/-- Boolean test that `pat` is an initial segment of `hay`. -/
def leadsWith : List Nat → List Nat → Bool
  | [], _ => true
  | _ :: _, [] => false
  | a :: as, b :: bs => a == b && leadsWith as bs

/-- Python `hay.find(pat)`: index of the first occurrence of `pat` in `hay`,
`none` when absent. -/
def findSub (pat : List Nat) : List Nat → Option Nat
  | [] => if leadsWith pat [] then some 0 else none
  | b :: bs => if leadsWith pat (b :: bs) then some 0 else (findSub pat bs).map (· + 1)

/-! ## MsgPack stream extractor

Embedding of `src/scansegmentapi/msgpack_stream_extractor.py`
(`MsgpackStreamExtractor`).  The mutually recursive methods
`_wait_for_stx`, `_wait_for_size`, `_wait_for_crc` are inlined into one
function `MsgSE.process` dispatching on the state field, exactly as
`extract_data_packages` does after appending the new chunk. -/

namespace MsgSE

/-- The `State` enum of the msgpack extractor. -/
inductive Phase
  | stx
  | size
  | crc
deriving DecidableEq, Repr

/-- Ordering used only for the termination measure. -/
def Phase.rank : Phase → Nat
  | .stx => 2
  | .size => 1
  | .crc => 0

/-- Instance fields of `MsgpackStreamExtractor`. -/
structure St where
  buffer : List Nat
  state : Phase
  msgpackSize : Nat
deriving DecidableEq, Repr

/-- `STX = b'\x02\x02\x02\x02'`. -/
def STXM : List Nat := [2, 2, 2, 2]

/-- The state-machine body: `_wait_for_stx` / `_wait_for_size` /
`_wait_for_crc` inlined, selected by the current state, as
`extract_data_packages` dispatches.  Returns the extracted packages and the
updated fields. -/
def process : St → List (List Nat) × St
  | ⟨buf, .stx, sz⟩ =>
    match findSub STXM buf with
    | none =>
      if 4 ≤ buf.length then ([], ⟨[], .stx, sz⟩)
      else ([], ⟨buf, .stx, sz⟩)
    | some i => process ⟨buf.drop i, .size, sz⟩
  | ⟨buf, .size, sz⟩ =>
    if buf.length < 4 + 4 then ([], ⟨buf, .size, sz⟩)
    else
      let s2 := leDecode (pySlice buf 4 4)
      if s2 = 0 then process ⟨buf.drop 4, .stx, s2⟩
      else process ⟨buf, .crc, s2⟩
  | ⟨buf, .crc, sz⟩ =>
    if buf.length < 4 + 4 + sz + 4 then ([], ⟨buf, .crc, sz⟩)
    else
      let expected := leDecode (pySlice buf (4 + 4 + sz) 4)
      let computed := crc32 (pySlice buf (4 + 4) sz)
      if expected ≠ computed then process ⟨buf.drop 4, .stx, sz⟩
      else
        let pkg := buf.take (4 + 4 + sz + 4)
        let r := process ⟨buf.drop (4 + 4 + sz + 4), .stx, sz⟩
        (pkg :: r.1, r.2)
termination_by st => (st.buffer.length, st.state.rank)
decreasing_by
  all_goals simp_wf
  all_goals simp [Prod.lex_def, Phase.rank]
  all_goals omega

/-- `extract_data_packages`: append the chunk, then run the state machine. -/
def extract (st : St) (data : List Nat) : List (List Nat) × St :=
  process ⟨st.buffer ++ data, st.state, st.msgpackSize⟩

/-- A freshly constructed `MsgpackStreamExtractor`. -/
def initState : St := ⟨[], .stx, 0⟩

end MsgSE

/-! ## Compact stream extractor

Embedding of `src/notworking/scansegmentapi/compact_stream_extractor.py`
(`CompactStreamExtractor`), same inlining scheme as for the msgpack
extractor. -/

namespace CompactSE

/-- The `State` enum of the Compact extractor. -/
inductive Phase
  | stx
  | header
  | moduleData
  | crc
deriving DecidableEq, Repr

/-- Ordering used only for the termination measure. -/
def Phase.rank : Phase → Nat
  | .stx => 3
  | .header => 2
  | .moduleData => 1
  | .crc => 0

/-- Instance fields of `CompactStreamExtractor`. -/
structure St where
  buffer : List Nat
  state : Phase
  metaPos : Nat
  payloadSize : Nat
deriving DecidableEq, Repr

/-- `DELIMITER = STX + COMMAND_ID = b'\x02\x02\x02\x02\x01\x00\x00\x00'`. -/
def DELIM : List Nat := [2, 2, 2, 2, 1, 0, 0, 0]

/-- The state-machine body of the Compact extractor (`_wait_for_stx`,
`_wait_for_header`, `_wait_for_module_data`, `_wait_for_crc` inlined; the
size-warning print of `_read_next_module_size` has no effect and is
dropped). -/
def process : St → List (List Nat) × St
  | ⟨buf, .stx, mp, ps⟩ =>
    match findSub DELIM buf with
    | none =>
      if 8 ≤ buf.length then ([], ⟨[], .stx, mp, ps⟩)
      else ([], ⟨buf, .stx, mp, ps⟩)
    | some i => process ⟨buf.drop i, .header, mp, ps⟩
  | ⟨buf, .header, mp, ps0⟩ =>
    if buf.length < 32 then ([], ⟨buf, .header, mp, ps0⟩)
    else
      let ps := leDecode (pySlice buf 28 4)
      if ps = 0 then process ⟨buf.drop 4, .stx, mp, ps⟩
      else process ⟨buf, .moduleData, 32, ps⟩
  | ⟨buf, .moduleData, mp, ps⟩ =>
    if buf.length < 32 + ps then ([], ⟨buf, .moduleData, mp, ps⟩)
    else if buf.length < mp + 20 + 4 then ([], ⟨buf, .moduleData, mp, ps⟩)
    else
      let nl := leDecode (pySlice buf (mp + 20) 4)
      let nsp := mp + 36 + 28 * nl
      if buf.length < nsp + 4 then ([], ⟨buf, .moduleData, mp, ps⟩)
      else
        let nms := leDecode (pySlice buf nsp 4)
        if nms = 0 then process ⟨buf, .crc, mp, ps⟩
        else process ⟨buf, .moduleData, 32 + ps, ps + nms⟩
  | ⟨buf, .crc, mp, ps⟩ =>
    if buf.length < 32 + ps + 4 then ([], ⟨buf, .crc, mp, ps⟩)
    else
      let expected := leDecode (pySlice buf (32 + ps) 4)
      let computed := crc32 (buf.take (32 + ps))
      if expected ≠ computed then process ⟨buf.drop 4, .stx, mp, ps⟩
      else
        let pkg := buf.take (32 + ps + 4)
        let r := process ⟨buf.drop (32 + ps + 4), .stx, mp, ps⟩
        (pkg :: r.1, r.2)
termination_by st => (st.buffer.length, st.state.rank, st.buffer.length - st.payloadSize)
decreasing_by
  all_goals simp_wf
  all_goals simp only [Prod.lex_def, Phase.rank, List.length_drop, true_and, and_true,
    lt_self_iff_false, false_or]
  all_goals try omega
  all_goals simp only [nl, nsp, nms] at *
  all_goals omega

/-- `extract_data_packages`: append the chunk, then run the state machine. -/
def extract (st : St) (data : List Nat) : List (List Nat) × St :=
  process ⟨st.buffer ++ data, st.state, st.metaPos, st.payloadSize⟩

/-- A freshly constructed `CompactStreamExtractor`. -/
def initState : St := ⟨[], .stx, 0, 0⟩

end CompactSE

/-! ## Compact telegram decoder

Embedding of `src/notworking/scansegmentapi/compact.py`. -/

namespace Compact

/-- `_read_uint(data, offset, value_size)`.  The source passes
`signed='false'` to `int.from_bytes`; that argument is a non-empty string,
hence truthy, so the read is in fact signed two's complement over the
actual slice (which clamps at the end of the buffer and can be shorter
than `value_size`).  The advanced offset is returned alongside. -/
def readUint (data : List Nat) (offset size : Nat) : Int × Nat :=
  (sintFromLE (pySlice data offset size), offset + size)

/-- `_read_uint8`. -/
def readUint8 (data : List Nat) (offset : Nat) : Int × Nat := readUint data offset 1

/-- `_read_uint32`. -/
def readUint32 (data : List Nat) (offset : Nat) : Int × Nat := readUint data offset 4

/-- `_read_uint64`. -/
def readUint64 (data : List Nat) (offset : Nat) : Int × Nat := readUint data offset 8

/-- `_read_float32`: `struct.unpack('<f', data[offset:offset+4])` requires
the slice to have exactly four bytes and raises `struct.error` otherwise.
The float value is kept as its raw little-endian bit pattern. -/
def readFloat32 (data : List Nat) (offset : Nat) : Except PyErr (Nat × Nat) :=
  if offset + 4 ≤ data.length then .ok (leDecode (pySlice data offset 4), offset + 4)
  else .error .structErr

/-- `struct.unpack_from('<' + str(n) + c, data, offset)` for one fixed
element size: `struct.error` when `n < 0` (Python builds the format string
with `str(n)`, and a negative count is a bad format) or when fewer than
`n * elemSize` bytes follow `offset`; element values are unsigned
little-endian (raw bit patterns for floats). -/
def unpackArrayFrom (data : List Nat) (n : Int) (offset elemSize : Nat) :
    Except PyErr (List Nat) :=
  if n < 0 then .error .structErr
  else if offset + n.toNat * elemSize ≤ data.length then
    .ok ((List.range n.toNat).map fun i => leDecode (pySlice data (offset + i * elemSize) elemSize))
  else .error .structErr

/-- `_read_uint64_array` (format `'<{n}Q'`, unsigned). -/
def readUint64Array (data : List Nat) (n : Int) (offset : Nat) :
    Except PyErr (List Nat × Nat) :=
  (unpackArrayFrom data n offset 8).map fun vs => (vs, offset + n.toNat * 8)

/-- `_read_float32_array` (format `'<{n}f'`; raw bit patterns). -/
def readFloat32Array (data : List Nat) (n : Int) (offset : Nat) :
    Except PyErr (List Nat × Nat) :=
  (unpackArrayFrom data n offset 4).map fun vs => (vs, offset + n.toNat * 4)

/-- Python `(v & 0x01) != 0` on a possibly negative int (two's complement). -/
def pyBit0 (v : Int) : Bool := decide (v.emod 2 = 1)

/-- Python `(v & 0x02) != 0` on a possibly negative int (two's complement). -/
def pyBit1 (v : Int) : Bool := decide (2 ≤ v.emod 4)

/-- The metadata dictionary built by `_read_meta_data` (timestamp arrays are
unsigned u64 values; angle arrays and the scaling factor are raw f32 bit
patterns). -/
structure MetaData where
  segmentCounter : Int
  frameNumber : Int
  senderId : Int
  numLayers : Int
  beamCount : Int
  echoCount : Int
  timestampStart : List Nat
  timestampStop : List Nat
  phi : List Nat
  thetaStart : List Nat
  thetaStop : List Nat
  distanceScalingFactor : Nat
  availability : Int
  dataContentEchos : Int
  dataContentBeams : Int
  hasDistance : Bool
  hasRssi : Bool
  hasProperties : Bool
  hasTheta : Bool
deriving DecidableEq, Repr

/-- `_read_meta_data`: the fixed 32-byte block, the five per-layer arrays,
the scaling factor, and the fixed 8-byte suffix, with the content-flag
masks applied. -/
def readMetaData (data : List Nat) (offset : Nat) :
    Except PyErr (MetaData × Int × Nat) := do
  let (segmentCounter, o1) := readUint64 data offset
  let (frameNumber, o2) := readUint64 data o1
  let (senderId, o3) := readUint32 data o2
  let (numLayers, o4) := readUint32 data o3
  let (beamCount, o5) := readUint32 data o4
  let (echoCount, o6) := readUint32 data o5
  let (timestampStart, o7) ← readUint64Array data numLayers o6
  let (timestampStop, o8) ← readUint64Array data numLayers o7
  let (phi, o9) ← readFloat32Array data numLayers o8
  let (thetaStart, o10) ← readFloat32Array data numLayers o9
  let (thetaStop, o11) ← readFloat32Array data numLayers o10
  let (dsf, o12) ← readFloat32 data o11
  let (nextModuleSize, o13) := readUint32 data o12
  let (availability, o14) := readUint8 data o13
  let (dce, o15) := readUint8 data o14
  let (dcb, o16) := readUint8 data o15
  let (_reserved, o17) := readUint8 data o16
  .ok ({ segmentCounter, frameNumber, senderId, numLayers, beamCount, echoCount,
         timestampStart, timestampStop, phi, thetaStart, thetaStop,
         distanceScalingFactor := dsf, availability,
         dataContentEchos := dce, dataContentBeams := dcb,
         hasDistance := pyBit0 dce, hasRssi := pyBit1 dce,
         hasProperties := pyBit0 dcb, hasTheta := pyBit1 dcb }, nextModuleSize, o17)

/-- One per-layer entry of the `SegmentData` list built by
`_read_beam_data` (matrices indexed echo-then-beam; all values raw). -/
structure Layer where
  rssi : List (List Nat)
  distance : List (List Nat)
  channelTheta : List Nat
  properties : List Nat
deriving DecidableEq, Repr

/-- Set entry `(i, j)` of a list-of-lists matrix. -/
def setMat (m : List (List Nat)) (i j v : Nat) : List (List Nat) :=
  m.set i ((m.getD i []).set j v)

/-- `struct.calcsize` of the per-beam format string
`'<' + ne*'H' + (ne*'H' if rssi) + ('B' if props) + ('H' if theta)`. -/
def beamEntrySize (meta : MetaData) (ne : Nat) : Nat :=
  2 * ne + (if meta.hasRssi then 2 * ne else 0) +
    (if meta.hasProperties then 1 else 0) + (if meta.hasTheta then 2 else 0)

/-- The per-(beam, layer) assignments of `_read_beam_data`: distances and
RSSI interleave two bytes each per echo, then one property byte, then two
theta bytes.  Raw values are stored (the source scales distances by the
float factor and maps theta to radians; those float results are represented
by their raw integer inputs here). -/
def beamUpdate (data : List Nat) (meta : MetaData) (ne offset b : Nat) (layer : Layer) : Layer :=
  let dOff := fun e => offset + (if meta.hasRssi then 4 * e else 2 * e)
  let rOff := fun e => offset + 4 * e + 2
  let base := offset + 2 * ne * (if meta.hasRssi then 2 else 1)
  let pPos := base
  let tPos := base + (if meta.hasProperties then 1 else 0)
  { distance := (List.range ne).foldl
      (fun m e => setMat m e b (leDecode (pySlice data (dOff e) 2))) layer.distance
    rssi := if meta.hasRssi then (List.range ne).foldl
      (fun m e => setMat m e b (leDecode (pySlice data (rOff e) 2))) layer.rssi
      else layer.rssi
    channelTheta := if meta.hasTheta then layer.channelTheta.set b (leDecode (pySlice data tPos 2))
      else layer.channelTheta
    properties := if meta.hasProperties then layer.properties.set b (leDecode (pySlice data pPos 1))
      else layer.properties }

/-- The beam-by-beam extraction loop of `_read_beam_data` over the ordered
(beam, layer) pairs.  `struct.unpack_from` raises when the entry does not
fit; when the loop body runs with RSSI absent (and at least one echo), or
with theta or properties absent, the source assigns `None` into a numpy
float array, which raises `TypeError`. -/
def beamLoop (data : List Nat) (meta : MetaData) (ne entrySize : Nat) :
    List (Nat × Nat) → Nat → List Layer → Except PyErr (List Layer)
  | [], _, acc => .ok acc
  | (b, l) :: rest, offset, acc =>
    if data.length < offset + entrySize then .error .structErr
    else if (0 < ne ∧ meta.hasRssi = false) ∨ meta.hasTheta = false ∨
        meta.hasProperties = false then .error .typeErr
    else beamLoop data meta ne entrySize rest (offset + entrySize)
      (acc.set l (beamUpdate data meta ne offset b (acc.getD l ⟨[], [], [], []⟩)))

/-- `_read_beam_data`: returns `none` (Python `None`) when the distance
channel is missing, otherwise runs the loop over beams (outer) and layers
(inner) starting from zero-initialized matrices. -/
def readBeamData (data : List Nat) (meta : MetaData) (offset : Nat) :
    Except PyErr (Option (List Layer)) :=
  let nl := meta.numLayers.toNat
  let ne := meta.echoCount.toNat
  let nb := meta.beamCount.toNat
  let initLayer : Layer :=
    ⟨List.replicate ne (List.replicate nb 0), List.replicate ne (List.replicate nb 0),
     List.replicate nb 0, List.replicate nb 0⟩
  if meta.hasDistance = false then .ok none
  else
    let pairs := ((List.range nb).map fun b => (List.range nl).map fun l => (b, l)).flatten
    (beamLoop data meta ne (beamEntrySize meta ne) pairs offset
      (List.replicate nl initLayer)).map some

/-- One module dictionary (metadata merged with its `SegmentData`). -/
structure Module where
  meta : MetaData
  segmentData : List Layer
deriving DecidableEq, Repr

/-- `_read_next_module`.  When `_read_beam_data` returns `None`, the source
runs `module_data.update(None)`, which raises `TypeError`. -/
def readNextModule (data : List Nat) (offset : Nat) :
    Except PyErr (Option Module × Int) := do
  let (meta, nextModuleSize, o) ← readMetaData data offset
  match ← readBeamData data meta o with
  | none => .error .typeErr
  | some seg => .ok (some ⟨meta, seg⟩, nextModuleSize)

/-- The `while next_module_size > 0` loop of `parse_payload`, as a fuelled
recursion.  Each iteration advances `offset` by at least one byte
(`next > 0`), and an iteration only succeeds when the scaling-factor read
fits inside the buffer (so `offset < data.length`); hence the
`data.length + 1` units of fuel that `parsePayload` passes always suffice
and the `fuelErr` arm is unreachable from `parsePayload`. -/
def parseModules (data : List Nat) : Nat → Nat → Int → Except PyErr (Option (List Module))
  | 0, _, _ => .error .fuelErr
  | fuel + 1, offset, next =>
    if 0 < next then
      match readNextModule data offset with
      | .error e => .error e
      | .ok (none, _) => .ok none
      | .ok (some m, next2) =>
        match parseModules data fuel (offset + next.toNat) next2 with
        | .error e => .error e
        | .ok none => .ok none
        | .ok (some ms) => .ok (some (m :: ms))
    else .ok (some [])

/-- The segment dictionary built by `parse_payload` (header fields plus the
module list). -/
structure SegmentRecord where
  commandId : Int
  telegramCounter : Int
  timestampTransmit : Int
  version : Int
  modules : List Module
deriving DecidableEq, Repr

/-- `_read_header` (reads at fixed offsets 4, 8, 16, 24, 28). -/
def readHeader (data : List Nat) : SegmentRecord × Int :=
  ({ commandId := (readUint32 data 4).1,
     telegramCounter := (readUint64 data 8).1,
     timestampTransmit := (readUint64 data 16).1,
     version := (readUint32 data 24).1,
     modules := [] }, (readUint32 data 28).1)

/-- `parse_payload`: header, then the module chain until
`next_module_size == 0`.  `.ok none` is the Python `return None`. -/
def parsePayload (payload : List Nat) : Except PyErr (Option SegmentRecord) := do
  let (header, next) := readHeader payload
  match ← parseModules payload (payload.length + 1) 32 next with
  | none => .ok none
  | some mods => .ok (some { header with modules := mods })

/-- `_verify_and_extract_payload` of `compact.py`: start marker, then
CRC-32 over everything but the trailing four bytes (negative Python slices
clamp for short inputs, as `drop`/`take` with truncated subtraction do). -/
def verifyAndExtractPayload (data : List Nat) : Option (List Nat) :=
  if data.take 4 ≠ [2, 2, 2, 2] then none
  else if leDecode (data.drop (data.length - 4)) ≠ crc32 (data.take (data.length - 4)) then none
  else some (data.take (data.length - 4))

/-- `Receiver.receive_segments` of `compact.py` over a pure transport model:
call `i` of `receive_new_scan_segment` yields `transport i`, with `none`
modelling a transport-level error (`has_no_error()` false).  On a parse
failure the source logs but still appends the `None` segment and
immediately subscripts it (`segment_data["Modules"][0]`), so any parse
exception or `None` result aborts the call; an empty module list raises
`IndexError` at `[0]`. -/
def receiveLoop (transport : Nat → Option (List Nat)) :
    Nat → Nat → Except PyErr (List (Option SegmentRecord) × List Int × List Int)
  | _, 0 => .ok ([], [], [])
  | i, n + 1 =>
    match transport i with
    | none => receiveLoop transport (i + 1) n
    | some bytes =>
      match verifyAndExtractPayload bytes with
      | none => receiveLoop transport (i + 1) n
      | some payload => do
        match ← parsePayload payload with
        | none => .error .typeErr
        | some record =>
          match record.modules with
          | [] => .error .indexErr
          | m :: _ => do
            let (segs, fns, sns) ← receiveLoop transport (i + 1) n
            .ok (some record :: segs, m.meta.frameNumber :: fns, m.meta.segmentCounter :: sns)

/-- `receive_segments(nb_segments)`. -/
def receiveSegments (transport : Nat → Option (List Nat)) (n : Nat) :
    Except PyErr (List (Option SegmentRecord) × List Int × List Int) :=
  receiveLoop transport 0 n

end Compact

/-! ## Channel decoders

Embedding of `src/scansegmentapi/decode_util.py`. -/

namespace DecodeUtil

/-- The element formats of `decode_util`: `'f' | 'I' | 'H' | 'h' | 'B'`. -/
inductive ChFormat
  | f32
  | u32
  | u16
  | i16
  | u8
deriving DecidableEq, Repr

/-- `struct.calcsize` of one element. -/
def ChFormat.sizeB : ChFormat → Nat
  | .f32 => 4
  | .u32 => 4
  | .u16 => 2
  | .i16 => 2
  | .u8 => 1

/-- Decoded value of one element chunk: unsigned little-endian except `'h'`
(signed two's complement); float values are raw bit patterns. -/
def ChFormat.dec : ChFormat → List Nat → Int
  | .i16, bs => sintFromLE bs
  | _, bs => (leDecode bs : Int)

/-- Split a byte string into consecutive chunks of `sz` bytes (`sz ≥ 1` for
every element format), mirroring how `struct.unpack` consumes the buffer. -/
def chunksBy (sz : Nat) : List Nat → List (List Nat)
  | [] => []
  | b :: bs => (b :: bs).take sz :: chunksBy sz (bs.drop (sz - 1))
termination_by l => l.length
decreasing_by
  simp_wf
  try simp [List.length_drop]
  omega

/-- The channel dictionary consumed by `_decode_channel`
(`numOfElems` and `data`). -/
structure Channel where
  numOfElems : Int
  data : List Nat
deriving DecidableEq, Repr

/-- `_decode_channel`: `struct.unpack('<' + str(nb) + fmt, data)` raises
`struct.error` when `nb < 0` (bad format string) or when the buffer length
differs from `nb * sizeof(fmt)`, and otherwise returns exactly `nb`
little-endian values. -/
def decodeChannel (channel : Channel) (fmt : ChFormat) : Except PyErr (List Int) :=
  if channel.numOfElems < 0 then .error .structErr
  else if channel.data.length = channel.numOfElems.toNat * fmt.sizeB then
    .ok ((chunksBy fmt.sizeB channel.data).map fmt.dec)
  else .error .structErr

/-- `decode_float_channel`. -/
def decodeFloatChannel (c : Channel) : Except PyErr (List Int) := decodeChannel c .f32

/-- `decode_uint32_channel`. -/
def decodeUint32Channel (c : Channel) : Except PyErr (List Int) := decodeChannel c .u32

/-- `decode_uint16_channel`. -/
def decodeUint16Channel (c : Channel) : Except PyErr (List Int) := decodeChannel c .u16

/-- `decode_int16_channel`. -/
def decodeInt16Channel (c : Channel) : Except PyErr (List Int) := decodeChannel c .i16

/-- `decode_uint8_channel`. -/
def decodeUint8Channel (c : Channel) : Except PyErr (List Int) := decodeChannel c .u8

end DecodeUtil

/-! ## MsgPack keyword rewriter

Embedding of `src/notworking/scansegmentapi/msgpack_util.py`. -/

namespace MsgUtil

/-- MsgPack map keys: integers on the wire, strings after rewriting. -/
inductive MKey
  | i (n : Int)
  | s (st : String)
deriving DecidableEq, Repr

/-- Generic decoded MsgPack tree; `map` keeps entries in insertion order,
as Python dicts do. -/
inductive MVal
  | int (n : Int)
  | str (s : String)
  | bytes (bs : List Nat)
  | boolean (b : Bool)
  | list (xs : List MVal)
  | map (entries : List (MKey × MVal))
deriving Repr

/-- `_IntegerKeywordLUT`, the inverse of `_KeywordIntegerLUT`. -/
def lut : Int → Option String
  | 0x10 => some "class"
  | 0x11 => some "data"
  | 0x12 => some "numOfElems"
  | 0x13 => some "elemSz"
  | 0x14 => some "endian"
  | 0x15 => some "elemTypes"
  | 0x30 => some "little"
  | 0x31 => some "float32"
  | 0x32 => some "uint32"
  | 0x33 => some "uint8"
  | 0x34 => some "uint16"
  | 0x35 => some "int16"
  | 0x50 => some "ChannelTheta"
  | 0x51 => some "ChannelPhi"
  | 0x52 => some "DistValues"
  | 0x53 => some "RssiValues"
  | 0x54 => some "PropertiesValues"
  | 0x70 => some "Scan"
  | 0x71 => some "TimestampStart"
  | 0x72 => some "TimestampStop"
  | 0x73 => some "ThetaStart"
  | 0x74 => some "ThetaStop"
  | 0x75 => some "ScanNumber"
  | 0x76 => some "ModuleID"
  | 0x77 => some "BeamCount"
  | 0x78 => some "EchoCount"
  | 0x90 => some "ScanSegment"
  | 0x91 => some "SegmentCounter"
  | 0x92 => some "FrameNumber"
  | 0x93 => some "Availability"
  | 0x94 => some "SenderId"
  | 0x95 => some "SegmentSize"
  | 0x96 => some "SegmentData"
  | 0xA0 => some "LayerId"
  | 0xB0 => some "TelegramCounter"
  | 0xB1 => some "TimestampTransmit"
  | _ => none

/-- `_IntegerKeywordLUT[ikey]` for a map key: any key outside the integer
table — in particular every string key produced by a previous rewrite —
raises `KeyError`. -/
def lutKey : MKey → Except PyErr String
  | .i n => match lut n with
    | some s => .ok s
    | none => .error .keyErr
  | .s _ => .error .keyErr

/-- `_IntegerKeywordLUT[value]` for a keyword-valued entry
(`class`/`endian`/`elemTypes` elements): integers in the table rewrite to
their keyword string, anything else raises. -/
def lutVal : MVal → Except PyErr MVal
  | .int n => match lut n with
    | some s => .ok (.str s)
    | none => .error .keyErr
  | _ => .error .keyErr

mutual

/-- `replace_keywords_in_dict`.  The Python function mutates dicts in
place; functionally: every key of a map is looked up in the integer table
(raising for keys outside it), values of `class`/`endian` are rewritten
through the table, map values recurse, list values have their dict elements
rewritten (every element of an `elemTypes` list goes through the table),
all other values — and non-map arguments — are returned unchanged. -/
def replaceKeywords : MVal → Except PyErr MVal
  | .map entries => (replaceEntries entries).map .map
  | v => .ok v

/-- The `for ikey in list(msgpack_value)` loop: each original entry is
popped and re-inserted under its keyword name, preserving order. -/
def replaceEntries : List (MKey × MVal) → Except PyErr (List (MKey × MVal))
  | [] => .ok []
  | (k, v) :: rest => do
    let name ← lutKey k
    let v2 ← rewriteValue name v
    let rest2 ← replaceEntries rest
    .ok ((MKey.s name, v2) :: rest2)

/-- The per-entry value handling inside the loop body. -/
def rewriteValue (name : String) (v : MVal) : Except PyErr MVal :=
  if name = "class" ∨ name = "endian" then lutVal v
  else
    match v with
    | .map es => (replaceEntries es).map .map
    | .list xs =>
      if name = "elemTypes" then (lutList xs).map .list
      else (rewriteElems xs).map .list
    | other => .ok other

/-- The `for idx, elem in enumerate(...)` loop for a non-`elemTypes` list:
dict elements are rewritten in place, others untouched. -/
def rewriteElems : List MVal → Except PyErr (List MVal)
  | [] => .ok []
  | x :: xs => do
    let x2 ← replaceKeywords x
    let xs2 ← rewriteElems xs
    .ok (x2 :: xs2)

/-- The same loop for an `elemTypes` list: every element goes through the
table. -/
def lutList : List MVal → Except PyErr (List MVal)
  | [] => .ok []
  | x :: xs => do
    let x2 ← lutVal x
    let xs2 ← lutList xs
    .ok (x2 :: xs2)

end

end MsgUtil

/-! ## Telegram builders and chunk feeding

Scaffolding for the stream-framer claims: well-formed telegrams of both
formats, the resting states of each state machine after a proper prefix of
a telegram, and sequential feeding of a chunk list. -/

/-- Feed a list of chunks through an extractor, collecting the package list
returned by each call and the final state. -/
def feedAll {σ : Type} (step : σ → List Nat → List (List Nat) × σ) :
    σ → List (List Nat) → List (List (List Nat)) × σ
  | st, [] => ([], st)
  | st, c :: cs =>
    let r := step st c
    let r2 := feedAll step r.2 cs
    (r.1 :: r2.1, r2.2)

/-- Split a byte string into consecutive 3-byte chunks (the last one may be
shorter). -/
def chunk3 : List Nat → List (List Nat)
  | [] => []
  | b :: bs => (b :: bs).take 3 :: chunk3 (bs.drop 2)
termination_by l => l.length
decreasing_by
  simp_wf
  try simp [List.length_drop]
  omega

/-- The extractor state after a sequence of `extract_data_packages` calls
(the packages returned along the way are discarded). -/
def applyCalls {σ : Type} (step : σ → List Nat → List (List Nat) × σ)
    (st : σ) (cs : List (List Nat)) : σ :=
  cs.foldl (fun s c => (step s c).2) st

namespace MsgSE

/-- A well-formed MsgPack telegram for its framer: the start marker, the
little-endian payload length, the payload, and the CRC-32 of the payload. -/
def mkTelegram (payload : List Nat) : List Nat :=
  STXM ++ le4 payload.length ++ payload ++ le4 (crc32 payload)

/-- Well-formedness of a payload: nonempty, length representable on 4
bytes, and made of bytes. -/
def wfPayload (payload : List Nat) : Prop :=
  0 < payload.length ∧ payload.length < 2 ^ 32 ∧ ∀ b ∈ payload, b < 256

/-- The resting state of the msgpack framer after it has consumed the first
`k` bytes of a telegram (`k` less than the telegram length). -/
def restState (payload : List Nat) (k : Nat) : St :=
  if k < 4 then ⟨(mkTelegram payload).take k, .stx, 0⟩
  else if k < 8 then ⟨(mkTelegram payload).take k, .size, 0⟩
  else ⟨(mkTelegram payload).take k, .crc, payload.length⟩

end MsgSE

namespace CompactSE

/-- The concatenated bytes of a module list (each module is a pair of its
declared line count and its content bytes). -/
def modBytes (mods : List (Nat × List Nat)) : List Nat :=
  (mods.map fun p => p.2).flatten

/-- Size of the first module of a chain (`0` terminates the chain). -/
def sizeHead : List (Nat × List Nat) → Nat
  | [] => 0
  | (_, c) :: _ => c.length

/-- Chained well-formedness of a module list: each module stores its line
count at offset 20 and the size of the next module (0 for the last) at
offset `36 + 28 * lines`, has room for both fields, and is made of bytes. -/
def chainOk : List (Nat × List Nat) → Prop
  | [] => True
  | (l, c) :: r => 40 + 28 * l ≤ c.length ∧ l < 2 ^ 32 ∧ c.length < 2 ^ 32 ∧
      (∀ b ∈ c, b < 256) ∧ pySlice c 20 4 = le4 l ∧
      pySlice c (36 + 28 * l) 4 = le4 (sizeHead r) ∧ chainOk r

/-- Everything of a Compact telegram before the trailing CRC: delimiter
(start marker plus command id 1), 20 further header bytes, the first-module
size, and the module bytes. -/
def preBytes (h20 : List Nat) (mods : List (Nat × List Nat)) : List Nat :=
  DELIM ++ h20 ++ le4 (sizeHead mods) ++ modBytes mods

/-- A well-formed Compact telegram for its framer. -/
def mkTelegram (h20 : List Nat) (mods : List (Nat × List Nat)) : List Nat :=
  preBytes h20 mods ++ le4 (crc32 (preBytes h20 mods))

/-- Well-formedness of the telegram ingredients. -/
def wfCompact (h20 : List Nat) (mods : List (Nat × List Nat)) : Prop :=
  h20.length = 20 ∧ mods ≠ [] ∧ chainOk mods ∧ ∀ b ∈ h20, b < 256

/-- The module walk of the Compact framer: `(S, PS, ms)` says the machine
is parked on a module chain suffix `ms` whose head starts at buffer offset
`S`, with `PS` bytes of modules accounted for up to and including that
head. -/
inductive Walk (mods : List (Nat × List Nat)) : Nat → Nat → List (Nat × List Nat) → Prop
  | base : Walk mods 32 (sizeHead mods) mods
  | step : ∀ S PS l c r, Walk mods S PS ((l, c) :: r) → r ≠ [] →
      Walk mods (32 + PS) (PS + sizeHead r) r

/-- The resting states of the Compact framer after consuming the first `k`
bytes of the telegram built from `h20` and `mods`. -/
inductive Rest (h20 : List Nat) (mods : List (Nat × List Nat)) : Nat → St → Prop
  | stx : ∀ k, k < 8 → Rest h20 mods k ⟨(mkTelegram h20 mods).take k, .stx, 0, 0⟩
  | header : ∀ k, 8 ≤ k → k < 32 →
      Rest h20 mods k ⟨(mkTelegram h20 mods).take k, .header, 0, 0⟩
  | module : ∀ k S PS ms, Walk mods S PS ms → k < 32 + PS →
      Rest h20 mods k ⟨(mkTelegram h20 mods).take k, .moduleData, S, PS⟩
  | crcR : ∀ k S PS l c, Walk mods S PS [(l, c)] → k < 36 + PS →
      Rest h20 mods k ⟨(mkTelegram h20 mods).take k, .crc, S, PS⟩

end CompactSE

/-! ## Concrete telegrams

Small concrete inputs used by witnesses and counterexamples: a Compact
telegram with one 44-byte module declaring zero layers and zero beams (so
its metadata is the whole module), in a good variant (distance flag set)
and a bad variant (distance flag clear), and a one-byte MsgPack telegram. -/

/-- The 20 header bytes after the delimiter: telegram counter 333,
transmit timestamp 444, version 1. -/
def h20c : List Nat := le8 333 ++ le8 444 ++ le4 1

/-- A 44-byte module: segment counter 666, frame number 999, sender 555,
zero layers, zero beams, two echos, scaling factor bits of `1.0f`,
next-module size 0, availability 1, `data_content_echos = 1` (distance
present), `data_content_beams = 0`, reserved 0. -/
def module44 : List Nat :=
  le8 666 ++ le8 999 ++ le4 555 ++ le4 0 ++ le4 0 ++ le4 2 ++
    [0, 0, 128, 63] ++ le4 0 ++ [1, 1, 0, 0]

/-- Same module with `data_content_echos = 0`: the required distance
channel is absent. -/
def module44bad : List Nat :=
  le8 666 ++ le8 999 ++ le4 555 ++ le4 0 ++ le4 0 ++ le4 2 ++
    [0, 0, 128, 63] ++ le4 0 ++ [1, 0, 0, 0]

/-- Pre-CRC bytes of the good Compact telegram (what `parse_payload`
consumes). -/
def preC : List Nat := CompactSE.preBytes h20c [(0, module44)]

/-- The good Compact telegram. -/
def telC : List Nat := CompactSE.mkTelegram h20c [(0, module44)]

/-- Pre-CRC bytes of the bad (distance-less) Compact telegram. -/
def preCbad : List Nat := CompactSE.preBytes h20c [(0, module44bad)]

/-- The bad (distance-less) Compact telegram; its CRC is valid, so it
passes envelope validation and reaches the parser. -/
def telCbad : List Nat := CompactSE.mkTelegram h20c [(0, module44bad)]

/-- A MsgPack telegram with the one-byte payload `[42]`. -/
def telM : List Nat := MsgSE.mkTelegram [42]

/-- The metadata record `_read_meta_data` builds for the module of `preC`. -/
def meta44 : Compact.MetaData :=
  ⟨666, 999, 555, 0, 0, 2, [], [], [], [], [], 1065353216, 1, 1, 0, true, false, false,
    false⟩

/-- The segment record `parse_payload` builds for `preC`. -/
def rec44 : Compact.SegmentRecord := ⟨1, 333, 444, 1, [⟨meta44, []⟩]⟩

/-! ## Basic facts about the byte primitives -/

theorem le4_length (n : Nat) : (le4 n).length = 4 := rfl

theorem le8_length (n : Nat) : (le8 n).length = 8 := rfl

theorem leDecode_le4 (n : Nat) (h : n < 2 ^ 32) : leDecode (le4 n) = n := by
  simp only [le4, leDecode]
  omega

theorem le4_bytes (n : Nat) : ∀ b ∈ le4 n, b < 256 := by
  simp only [le4, List.mem_cons, List.not_mem_nil, or_false]
  rintro b (rfl | rfl | rfl | rfl) <;> omega

theorem le8_bytes (n : Nat) : ∀ b ∈ le8 n, b < 256 := by
  simp only [le8, List.mem_cons, List.not_mem_nil, or_false]
  rintro b (rfl | rfl | rfl | rfl | rfl | rfl | rfl | rfl) <;> omega

theorem crcStep_lt (c : Nat) (h : c < 2 ^ 32) : crcStep c < 2 ^ 32 := by
  unfold crcStep
  split
  · exact Nat.xor_lt_two_pow (by omega) (by norm_num)
  · omega

theorem crcByte_lt (c b : Nat) (hc : c < 2 ^ 32) (hb : b < 256) : crcByte c b < 2 ^ 32 := by
  unfold crcByte
  have h0 : c ^^^ b < 2 ^ 32 := Nat.xor_lt_two_pow hc (by omega)
  exact crcStep_lt _ (crcStep_lt _ (crcStep_lt _ (crcStep_lt _ (crcStep_lt _ (crcStep_lt _
    (crcStep_lt _ (crcStep_lt _ h0)))))))

theorem crc32_lt (l : List Nat) (h : ∀ b ∈ l, b < 256) : crc32 l < 2 ^ 32 := by
  unfold crc32
  have : ∀ (l : List Nat) (c : Nat), (∀ b ∈ l, b < 256) → c < 2 ^ 32 →
      l.foldl crcByte c < 2 ^ 32 := by
    intro l
    induction l with
    | nil => intro c _ hc; simpa using hc
    | cons b bs ih =>
      intro c hb hc
      simp only [List.foldl_cons]
      exact ih _ (fun x hx => hb x (List.mem_cons_of_mem _ hx))
        (crcByte_lt _ _ hc (hb b (List.mem_cons_self _ _)))
  exact Nat.xor_lt_two_pow (this l 0xFFFFFFFF h (by norm_num)) (by norm_num)

theorem pySlice_length (l : List Nat) (off n : Nat) :
    (pySlice l off n).length = min n (l.length - off) := by
  simp [pySlice]

theorem pySlice_take (l : List Nat) (k off n : Nat) (h : off + n ≤ k) :
    pySlice (l.take k) off n = pySlice l off n := by
  simp only [pySlice, List.drop_take, List.take_take]
  congr 1
  omega

theorem pySlice_append_left (l1 l2 : List Nat) (off n : Nat) (h : off + n ≤ l1.length) :
    pySlice (l1 ++ l2) off n = pySlice l1 off n := by
  simp only [pySlice]
  rw [List.drop_append_of_le_length (by omega), List.take_append_of_le_length]
  simp only [List.length_drop]
  omega

theorem pySlice_append_shift (l1 l2 : List Nat) (off n : Nat) :
    pySlice (l1 ++ l2) (l1.length + off) n = pySlice l2 off n := by
  simp [pySlice, List.drop_append]

theorem leadsWith_iff (pat hay : List Nat) :
    leadsWith pat hay = true ↔ hay.take pat.length = pat := by
  induction pat generalizing hay with
  | nil => simp [leadsWith]
  | cons a as ih =>
    cases hay with
    | nil => simp [leadsWith]
    | cons b bs =>
      simp only [leadsWith, Bool.and_eq_true, beq_iff_eq, ih, List.length_cons,
        List.take_succ_cons, List.cons.injEq]
      exact ⟨fun ⟨h1, h2⟩ => ⟨h1.symm, h2⟩, fun ⟨h1, h2⟩ => ⟨h1.symm, h2⟩⟩

theorem leadsWith_short (pat hay : List Nat) (h : hay.length < pat.length) :
    leadsWith pat hay = false := by
  rw [Bool.eq_false_iff]
  intro hc
  rw [leadsWith_iff] at hc
  have := congrArg List.length hc
  simp only [List.length_take] at this
  omega

theorem findSub_none_short (pat hay : List Nat) (h : hay.length < pat.length) :
    findSub pat hay = none := by
  induction hay with
  | nil =>
    rw [findSub, leadsWith_short _ _ h]
    simp
  | cons b bs ih =>
    rw [findSub, leadsWith_short _ _ h]
    simp only [Bool.false_eq_true, if_false]
    rw [ih (by simp at h ⊢; omega)]
    rfl

theorem findSub_zero (pat hay : List Nat) (h : leadsWith pat hay = true) :
    findSub pat hay = some 0 := by
  cases hay with
  | nil => simp [findSub, h]
  | cons b bs => simp [findSub, h]

/-! ## Claim C1 -/

/-- C1: refuted as stated — `_read_uint` passes `signed='false'` (a truthy
string) to `int.from_bytes`, so the scalar readers are signed: a u32 read
of bytes `ff ff ff ff` yields `-1`, not `4294967295`, and header fields
such as the telegram counter can be negative. -/
theorem c1_read_uint_signed :
    Compact.readUint32 [255, 255, 255, 255] 0 = (-1, 4) ∧
      Compact.readUint64 [255, 255, 255, 255, 255, 255, 255, 255, 1, 1] 0 = (-1, 8) := by
  constructor <;> decide

/-! ## Claim C9 -/

theorem DecodeUtil.chunksBy_cons (sz : Nat) (b : Nat) (bs : List Nat) (hsz : 0 < sz) :
    chunksBy sz (b :: bs) = (b :: bs).take sz :: chunksBy sz ((b :: bs).drop sz) := by
  rw [chunksBy]
  congr 2
  cases sz with
  | zero => omega
  | succ m => simp

theorem DecodeUtil.chunksBy_nil (sz : Nat) : chunksBy sz [] = [] := by
  rw [chunksBy]

theorem DecodeUtil.chunksBy_length (sz : Nat) (hsz : 0 < sz) :
    ∀ (n : Nat) (l : List Nat), l.length = n * sz → (chunksBy sz l).length = n := by
  intro n
  induction n with
  | zero =>
    intro l hl
    have : l = [] := List.eq_nil_of_length_eq_zero (by omega)
    subst this
    rw [chunksBy_nil]
    rfl
  | succ m ih =>
    intro l hl
    rw [Nat.succ_mul] at hl
    cases l with
    | nil => simp at hl; omega
    | cons b bs =>
      rw [chunksBy_cons _ _ _ hsz]
      simp only [List.length_cons]
      rw [ih ((b :: bs).drop sz) (by simp; simp at hl; omega)]

theorem DecodeUtil.chunksBy_getD (sz : Nat) (hsz : 0 < sz) :
    ∀ (i : Nat) (l : List Nat), i * sz < l.length →
      (chunksBy sz l).getD i [] = pySlice l (i * sz) sz := by
  intro i
  induction i with
  | zero =>
    intro l hl
    cases l with
    | nil => simp at hl
    | cons b bs =>
      rw [chunksBy_cons _ _ _ hsz]
      simp [pySlice]
  | succ m ih =>
    intro l hl
    have hx : (m + 1) * sz = m * sz + sz := Nat.succ_mul m sz
    cases l with
    | nil => simp at hl
    | cons b bs =>
      rw [chunksBy_cons _ _ _ hsz]
      have heq : (m + 1) * sz = sz + m * sz := by omega
      rw [heq]
      simp only [List.getD_cons_succ]
      rw [ih ((b :: bs).drop sz) (by simp at hl ⊢; omega)]
      simp [pySlice, List.drop_drop, Nat.add_comm]

/-- C9: for a channel whose `numOfElems` is the natural number `n`, each
typed decoder returns exactly `n` values — element `i` being the
little-endian decode of bytes `[i*size, (i+1)*size)` — when the byte length
is `n * size`, and fails with the length-mismatch `struct.error` exactly
when it is not. -/
theorem c9_channel_decoders (ch : DecodeUtil.Channel) (fmt : DecodeUtil.ChFormat)
    (n : Nat) (hn : ch.numOfElems = (n : Int)) :
    (ch.data.length = n * fmt.sizeB →
      ∃ out, DecodeUtil.decodeChannel ch fmt = .ok out ∧ out.length = n ∧
        ∀ i, i < n → out.getD i 0 = fmt.dec (pySlice ch.data (i * fmt.sizeB) fmt.sizeB)) ∧
    (ch.data.length ≠ n * fmt.sizeB →
      DecodeUtil.decodeChannel ch fmt = .error .structErr) := by
  have hsz : 0 < fmt.sizeB := by cases fmt <;> simp [DecodeUtil.ChFormat.sizeB]
  have htn : ch.numOfElems.toNat = n := by rw [hn]; simp
  constructor
  · intro hlen
    refine ⟨(DecodeUtil.chunksBy fmt.sizeB ch.data).map fmt.dec, ?_, ?_, ?_⟩
    · unfold DecodeUtil.decodeChannel
      rw [if_neg (by omega), htn, if_pos hlen]
    · rw [List.length_map, DecodeUtil.chunksBy_length _ hsz n _ hlen]
    · intro i hi
      have hchunk : i * fmt.sizeB < ch.data.length := by
        calc i * fmt.sizeB < n * fmt.sizeB := (Nat.mul_lt_mul_right hsz).mpr hi
          _ = ch.data.length := hlen.symm
      have hlen2 : i < (DecodeUtil.chunksBy fmt.sizeB ch.data).length := by
        rw [DecodeUtil.chunksBy_length _ hsz n _ hlen]; exact hi
      rw [← DecodeUtil.chunksBy_getD _ hsz i _ hchunk, List.getD_eq_getElem?_getD,
        List.getD_eq_getElem?_getD, List.getElem?_map,
        List.getElem?_eq_getElem hlen2]
      rfl
  · intro hlen
    unfold DecodeUtil.decodeChannel
    rw [if_neg (by omega), htn, if_neg hlen]


/-! ## Framer lemmas: prefix feeding, fixpoints, CRC of emitted packages -/

theorem take_len_append (l1 l2 : List Nat) (n : Nat) (h : l1.length = n) :
    (l1 ++ l2).take n = l1 := by
  subst h
  exact List.take_left _ _

theorem pySlice_append_at (l1 l2 : List Nat) (off n : Nat) (h : l1.length = off) :
    pySlice (l1 ++ l2) off n = l2.take n := by
  subst h
  simp [pySlice, List.drop_left]

theorem chunk3_nil : chunk3 [] = [] := by rw [chunk3]

theorem chunk3_cons (b : Nat) (bs : List Nat) :
    chunk3 (b :: bs) = (b :: bs).take 3 :: chunk3 ((b :: bs).drop 3) := by
  rw [chunk3]
  rfl

theorem chunk3_ne_nil (l : List Nat) (h : l ≠ []) : chunk3 l ≠ [] := by
  obtain ⟨b, bs, rfl⟩ := List.exists_cons_of_ne_nil h
  rw [chunk3_cons]
  simp

theorem chunk3_drop (T : List Nat) (k : Nat) (h : k < T.length) :
    chunk3 (T.drop k) = (T.drop k).take 3 :: chunk3 (T.drop (k + 3)) := by
  have hne : T.drop k ≠ [] := by
    intro hcon
    have := congrArg List.length hcon
    simp at this
    omega
  obtain ⟨b, bs, hbs⟩ := List.exists_cons_of_ne_nil hne
  rw [hbs, chunk3_cons, ← hbs, List.drop_drop]

theorem feedAll_cons {σ : Type} (step : σ → List Nat → List (List Nat) × σ) (st : σ)
    (c : List Nat) (cs : List (List Nat)) :
    feedAll step st (c :: cs) =
      ((step st c).1 :: (feedAll step (step st c).2 cs).1,
        (feedAll step (step st c).2 cs).2) := rfl

namespace MsgSE

theorem mkTelegram_length (payload : List Nat) :
    (mkTelegram payload).length = payload.length + 12 := by
  simp [mkTelegram, STXM, le4]

theorem take_eq_self (payload : List Nat) :
    (mkTelegram payload).take (payload.length + 12) = mkTelegram payload := by
  rw [← mkTelegram_length, List.take_length]

theorem leads_take (payload : List Nat) (k : Nat) (h4 : 4 ≤ k) :
    leadsWith STXM ((mkTelegram payload).take k) = true := by
  rw [leadsWith_iff, List.take_take]
  have hmin : min (STXM : List Nat).length k = 4 := by simp [STXM]; omega
  rw [hmin, show mkTelegram payload =
      STXM ++ (le4 payload.length ++ (payload ++ le4 (crc32 payload))) from by
        simp [mkTelegram],
    take_len_append _ _ 4 (by simp [STXM])]

theorem slice_size (payload : List Nat) (h : payload.length < 2 ^ 32) :
    leDecode (pySlice (mkTelegram payload) 4 4) = payload.length := by
  rw [show mkTelegram payload =
      STXM ++ (le4 payload.length ++ (payload ++ le4 (crc32 payload))) from by simp [mkTelegram],
    pySlice_append_at _ _ 4 4 (by simp [STXM]),
    take_len_append _ _ 4 (le4_length _), leDecode_le4 _ h]

theorem slice_crc (payload : List Nat) (hb : ∀ b ∈ payload, b < 256) :
    leDecode (pySlice (mkTelegram payload) (4 + 4 + payload.length) 4) = crc32 payload := by
  rw [show mkTelegram payload =
      (STXM ++ le4 payload.length ++ payload) ++ le4 (crc32 payload) from by simp [mkTelegram],
    pySlice_append_at _ _ (4 + 4 + payload.length) 4 (by simp [STXM, le4]; omega),
    List.take_of_length_le (by simp [le4]), leDecode_le4 _ (crc32_lt _ hb)]

theorem slice_payload (payload : List Nat) :
    pySlice (mkTelegram payload) (4 + 4) payload.length = payload := by
  rw [show mkTelegram payload =
      (STXM ++ le4 payload.length) ++ (payload ++ le4 (crc32 payload)) from by simp [mkTelegram],
    pySlice_append_at _ _ (4 + 4) payload.length (by simp [STXM, le4]),
    take_len_append _ _ _ rfl]

theorem stepCrc (payload : List Nat) (hwf : wfPayload payload) (k' : Nat) (h8 : 8 ≤ k')
    (hk' : k' ≤ payload.length + 12) :
    process ⟨(mkTelegram payload).take k', .crc, payload.length⟩ =
      (if k' = payload.length + 12 then [mkTelegram payload] else [],
       if k' = payload.length + 12 then ⟨[], .stx, payload.length⟩
       else ⟨(mkTelegram payload).take k', .crc, payload.length⟩) := by
  obtain ⟨hpos, hlt, hb⟩ := hwf
  have hlen : ((mkTelegram payload).take k').length = k' := by
    rw [List.length_take, mkTelegram_length]
    omega
  rcases Nat.lt_or_ge k' (payload.length + 12) with hlt2 | hge
  · rw [if_neg (by omega), if_neg (by omega)]
    rw [process]
    rw [if_pos (by rw [hlen]; omega)]
  · have hEq : k' = payload.length + 12 := by omega
    subst hEq
    rw [if_pos rfl, if_pos rfl, take_eq_self]
    rw [process]
    have hlenT : (mkTelegram payload).length = payload.length + 12 := mkTelegram_length payload
    rw [if_neg (by rw [hlenT]; omega)]
    have he : leDecode (pySlice (mkTelegram payload) (4 + 4 + payload.length) 4) =
        crc32 (pySlice (mkTelegram payload) (4 + 4) payload.length) := by
      rw [slice_crc _ hb, slice_payload]
    rw [if_neg (by simpa using he)]
    have hdrop : (mkTelegram payload).drop (4 + 4 + payload.length + 4) = [] := by
      apply List.drop_eq_nil_of_le
      rw [hlenT]; omega
    have htake : (mkTelegram payload).take (4 + 4 + payload.length + 4) = mkTelegram payload := by
      apply List.take_of_length_le
      rw [hlenT]; omega
    rw [hdrop, htake]
    rw [process]
    simp [findSub, leadsWith, STXM]

theorem stepSize (payload : List Nat) (hwf : wfPayload payload) (k' : Nat) (h4 : 4 ≤ k')
    (hk' : k' ≤ payload.length + 12) :
    process ⟨(mkTelegram payload).take k', .size, 0⟩ =
      (if k' = payload.length + 12 then [mkTelegram payload] else [],
       if k' = payload.length + 12 then ⟨[], .stx, payload.length⟩
       else restState payload k') := by
  obtain ⟨hpos, hlt, hb⟩ := hwf
  have hlen : ((mkTelegram payload).take k').length = k' := by
    rw [List.length_take, mkTelegram_length]
    omega
  rcases Nat.lt_or_ge k' 8 with h8 | h8
  · rw [process, if_pos (by rw [hlen]; omega), if_neg (by omega), if_neg (by omega),
      restState, if_neg (by omega), if_pos h8]
  · rw [process, if_neg (by rw [hlen]; omega)]
    have hs2 : leDecode (pySlice ((mkTelegram payload).take k') 4 4) = payload.length := by
      rw [pySlice_take _ _ _ _ (by omega), slice_size _ hlt]
    rw [hs2, if_neg (by omega), stepCrc payload ⟨hpos, hlt, hb⟩ k' h8 hk']
    by_cases heq : k' = payload.length + 12
    · simp only [if_pos heq]
    · simp only [if_neg heq]
      rw [restState, if_neg (by omega), if_neg (by omega)]

theorem stepStx (payload : List Nat) (hwf : wfPayload payload) (k' : Nat)
    (hk' : k' ≤ payload.length + 12) :
    process ⟨(mkTelegram payload).take k', .stx, 0⟩ =
      (if k' = payload.length + 12 then [mkTelegram payload] else [],
       if k' = payload.length + 12 then ⟨[], .stx, payload.length⟩
       else restState payload k') := by
  obtain ⟨hpos, hlt, hb⟩ := hwf
  have hlen : ((mkTelegram payload).take k').length = k' := by
    rw [List.length_take, mkTelegram_length]
    omega
  rcases Nat.lt_or_ge k' 4 with h4 | h4
  · rw [process, findSub_none_short _ _ (by rw [hlen]; simp [STXM]; omega)]
    rw [if_neg (by rw [hlen]; omega), if_neg (by omega), if_neg (by omega), restState,
      if_pos h4]
  · rw [process]
    simp only [findSub_zero _ _ (leads_take payload k' h4), List.drop_zero]
    exact stepSize payload ⟨hpos, hlt, hb⟩ k' h4 hk'

theorem restState_buffer (payload : List Nat) (k : Nat) :
    (restState payload k).buffer = (mkTelegram payload).take k := by
  rw [restState]
  split_ifs <;> rfl

theorem stepAny (payload : List Nat) (hwf : wfPayload payload) (k k' : Nat)
    (hkk : k ≤ k') (hk : k < payload.length + 12) (hk' : k' ≤ payload.length + 12) :
    process ⟨(mkTelegram payload).take k', (restState payload k).state,
        (restState payload k).msgpackSize⟩ =
      (if k' = payload.length + 12 then [mkTelegram payload] else [],
       if k' = payload.length + 12 then ⟨[], .stx, payload.length⟩
       else restState payload k') := by
  by_cases h4 : k < 4
  · have hr : restState payload k = ⟨(mkTelegram payload).take k, .stx, 0⟩ := by
      rw [restState, if_pos h4]
    rw [hr]
    exact stepStx payload hwf k' hk'
  · by_cases h8 : k < 8
    · have hr : restState payload k = ⟨(mkTelegram payload).take k, .size, 0⟩ := by
        rw [restState, if_neg h4, if_pos h8]
      rw [hr]
      exact stepSize payload hwf k' (by omega) hk'
    · have hr : restState payload k =
          ⟨(mkTelegram payload).take k, .crc, payload.length⟩ := by
        rw [restState, if_neg h4, if_neg h8]
      rw [hr, stepCrc payload hwf k' (by omega) hk']
      by_cases heq : k' = payload.length + 12
      · simp only [if_pos heq]
      · simp only [if_neg heq]
        rw [restState, if_neg (by omega), if_neg (by omega)]

theorem feedLoop (payload : List Nat) (hwf : wfPayload payload) :
    ∀ (n k : Nat), payload.length + 12 - k ≤ n → k < payload.length + 12 →
      (feedAll extract (restState payload k)
          (chunk3 ((mkTelegram payload).drop k))).1 =
        List.replicate ((chunk3 ((mkTelegram payload).drop k)).length - 1) [] ++
          [[mkTelegram payload]] := by
  intro n
  induction n with
  | zero => intro k h1 h2; omega
  | succ m ih =>
    intro k h1 h2
    have hTlen : (mkTelegram payload).length = payload.length + 12 := mkTelegram_length payload
    rw [chunk3_drop _ _ (by omega)]
    rw [feedAll_cons]
    have hbuf : (restState payload k).buffer ++ ((mkTelegram payload).drop k).take 3 =
        (mkTelegram payload).take (k + 3) := by
      rw [restState_buffer, List.take_add]
    have hext : extract (restState payload k) (((mkTelegram payload).drop k).take 3) =
        process ⟨(mkTelegram payload).take (k + 3), (restState payload k).state,
          (restState payload k).msgpackSize⟩ := by
      rw [extract, hbuf]
    rcases Nat.lt_or_ge (k + 3) (payload.length + 12) with hlt | hge
    · -- not yet the last chunk
      have hstep := stepAny payload hwf k (k + 3) (by omega) h2 (by omega)
      rw [hext, hstep, if_neg (by omega), if_neg (by omega)]
      have hrec := ih (k + 3) (by omega) hlt
      simp only [hrec]
      have hc : chunk3 ((mkTelegram payload).drop (k + 3)) ≠ [] := by
        apply chunk3_ne_nil
        intro hcon
        have := congrArg List.length hcon
        simp at this
        omega
      have hlen1 : 1 ≤ (chunk3 ((mkTelegram payload).drop (k + 3))).length := by
        cases hx : chunk3 ((mkTelegram payload).drop (k + 3)) with
        | nil => exact absurd hx hc
        | cons a as => simp
      simp only [List.length_cons]
      rw [show (chunk3 ((mkTelegram payload).drop (k + 3))).length + 1 - 1 =
        ((chunk3 ((mkTelegram payload).drop (k + 3))).length - 1) + 1 from by omega]
      rw [List.replicate_succ]
      simp
    · -- this is the last chunk
      have htk : (mkTelegram payload).take (k + 3) =
          (mkTelegram payload).take (payload.length + 12) := by
        rw [take_eq_self, List.take_of_length_le (by omega)]
      have hstep := stepAny payload hwf k (payload.length + 12) (by omega) h2 (by omega)
      rw [hext, htk, hstep, if_pos rfl, if_pos rfl]
      have hdone : (mkTelegram payload).drop (k + 3) = [] :=
        List.drop_eq_nil_of_le (by omega)
      rw [hdone, chunk3_nil]
      simp [feedAll]

end MsgSE

namespace CompactSE

theorem modBytes_cons (l : Nat) (c : List Nat) (r : List (Nat × List Nat)) :
    modBytes ((l, c) :: r) = c ++ modBytes r := by
  simp [modBytes]

theorem modBytes_nil : modBytes [] = [] := rfl

theorem chain_bytes (ms : List (Nat × List Nat)) (h : chainOk ms) :
    ∀ b ∈ modBytes ms, b < 256 := by
  induction ms with
  | nil => simp [modBytes_nil]
  | cons hd tl ih =>
    obtain ⟨l, c⟩ := hd
    rw [modBytes_cons]
    rw [chainOk] at h
    intro b hb
    rcases List.mem_append.mp hb with hc | ht
    · exact h.2.2.2.1 b hc
    · exact ih h.2.2.2.2.2.2 b ht

theorem preBytes_length (h20 : List Nat) (mods : List (Nat × List Nat))
    (h : h20.length = 20) :
    (preBytes h20 mods).length = 32 + (modBytes mods).length := by
  simp [preBytes, DELIM, le4, h]
  omega

theorem preBytes_bytes (h20 : List Nat) (mods : List (Nat × List Nat))
    (hwf : wfCompact h20 mods) : ∀ b ∈ preBytes h20 mods, b < 256 := by
  obtain ⟨h1, h2, h3, h4⟩ := hwf
  intro b hb
  simp only [preBytes, List.append_assoc, List.mem_append] at hb
  rcases hb with hb | hb | hb | hb
  · simp [DELIM] at hb
    rcases hb with rfl | rfl | rfl | rfl | rfl | rfl | rfl | rfl <;> omega
  · exact h4 b hb
  · exact le4_bytes _ b hb
  · exact chain_bytes mods h3 b hb

theorem mkTelegramC_length (h20 : List Nat) (mods : List (Nat × List Nat))
    (h : h20.length = 20) :
    (mkTelegram h20 mods).length = 36 + (modBytes mods).length := by
  simp [mkTelegram, preBytes_length h20 mods h, le4]
  omega

theorem takeC_eq_self (h20 : List Nat) (mods : List (Nat × List Nat)) (h : h20.length = 20) :
    (mkTelegram h20 mods).take (36 + (modBytes mods).length) = mkTelegram h20 mods := by
  rw [← mkTelegramC_length h20 mods h, List.take_length]

theorem walk_facts (h20 : List Nat) (mods : List (Nat × List Nat))
    (hwf : wfCompact h20 mods) :
    ∀ S PS ms, Walk mods S PS ms →
      ms ≠ [] ∧ chainOk ms ∧ S + sizeHead ms = 32 + PS ∧
      S + (modBytes ms).length = 32 + (modBytes mods).length ∧
      ∃ pre, preBytes h20 mods = pre ++ modBytes ms ∧ pre.length = S := by
  intro S PS ms hw
  induction hw with
  | base =>
    refine ⟨hwf.2.1, hwf.2.2.1, rfl, rfl,
      ⟨DELIM ++ h20 ++ le4 (sizeHead mods), ?_, ?_⟩⟩
    · simp [preBytes]
    · simp [DELIM, le4, hwf.1]
  | step S PS l c r hw hr ih =>
    obtain ⟨hne, hok, hshead, hsum, pre, hpre, hpreLen⟩ := ih
    rw [chainOk] at hok
    rw [modBytes_cons] at hsum hpre
    refine ⟨hr, hok.2.2.2.2.2.2, ?_, ?_, ⟨pre ++ c, ?_, ?_⟩⟩
    · rw [sizeHead] at hshead
      omega
    · simp only [List.length_append] at hsum ⊢
      rw [sizeHead] at hshead
      omega
    · rw [hpre, List.append_assoc]
    · simp only [List.length_append]
      rw [sizeHead] at hshead
      omega

theorem slice_module (h20 : List Nat) (mods : List (Nat × List Nat)) (S off n : Nat)
    (c : List Nat) (rest pre : List Nat)
    (hpre : preBytes h20 mods = pre ++ (c ++ rest)) (hpreLen : pre.length = S)
    (hin : off + n ≤ c.length) :
    pySlice (mkTelegram h20 mods) (S + off) n = pySlice c off n := by
  rw [mkTelegram]
  generalize crc32 (preBytes h20 mods) = C
  rw [hpre, show pre ++ (c ++ rest) ++ le4 C = pre ++ (c ++ (rest ++ le4 C)) from by simp,
    ← hpreLen, pySlice_append_shift, pySlice_append_left _ _ _ _ hin]

theorem slice_at_crc (h20 : List Nat) (mods : List (Nat × List Nat))
    (hwf : wfCompact h20 mods) :
    leDecode (pySlice (mkTelegram h20 mods) (32 + (modBytes mods).length) 4) =
      crc32 (preBytes h20 mods) := by
  rw [mkTelegram, pySlice_append_at _ _ _ 4 (preBytes_length h20 mods hwf.1),
    List.take_of_length_le (by simp [le4]),
    leDecode_le4 _ (crc32_lt _ (preBytes_bytes h20 mods hwf))]

theorem take_at_crc (h20 : List Nat) (mods : List (Nat × List Nat))
    (hwf : wfCompact h20 mods) :
    (mkTelegram h20 mods).take (32 + (modBytes mods).length) = preBytes h20 mods := by
  rw [mkTelegram, take_len_append _ _ _ (preBytes_length h20 mods hwf.1)]

theorem stepCrcC (h20 : List Nat) (mods : List (Nat × List Nat))
    (hwf : wfCompact h20 mods) (mp k' : Nat)
    (hk' : k' ≤ 36 + (modBytes mods).length) :
    process ⟨(mkTelegram h20 mods).take k', .crc, mp, (modBytes mods).length⟩ =
      (if k' = 36 + (modBytes mods).length then [mkTelegram h20 mods] else [],
       if k' = 36 + (modBytes mods).length then
         ⟨[], .stx, mp, (modBytes mods).length⟩
       else ⟨(mkTelegram h20 mods).take k', .crc, mp, (modBytes mods).length⟩) := by
  have hlen : ((mkTelegram h20 mods).take k').length = k' := by
    rw [List.length_take, mkTelegramC_length h20 mods hwf.1]
    omega
  rcases Nat.lt_or_ge k' (36 + (modBytes mods).length) with hlt2 | hge
  · rw [if_neg (by omega), if_neg (by omega), process, if_pos (by rw [hlen]; omega)]
  · have hEq : k' = 36 + (modBytes mods).length := by omega
    subst hEq
    rw [if_pos rfl, if_pos rfl, takeC_eq_self h20 mods hwf.1, process]
    have hlenT : (mkTelegram h20 mods).length = 36 + (modBytes mods).length :=
      mkTelegramC_length h20 mods hwf.1
    rw [if_neg (by rw [hlenT]; omega)]
    have he : leDecode (pySlice (mkTelegram h20 mods) (32 + (modBytes mods).length) 4) =
        crc32 ((mkTelegram h20 mods).take (32 + (modBytes mods).length)) := by
      rw [slice_at_crc h20 mods hwf, take_at_crc h20 mods hwf]
    rw [if_neg (by simpa using he)]
    have hdrop : (mkTelegram h20 mods).drop (32 + (modBytes mods).length + 4) = [] := by
      apply List.drop_eq_nil_of_le
      rw [hlenT]; omega
    have htake : (mkTelegram h20 mods).take (32 + (modBytes mods).length + 4) =
        mkTelegram h20 mods := by
      apply List.take_of_length_le
      rw [hlenT]; omega
    rw [hdrop, htake, process]
    simp [findSub, leadsWith, DELIM]

theorem sizeHead_nil : sizeHead [] = 0 := rfl

theorem sizeHead_cons (l : Nat) (c : List Nat) (r : List (Nat × List Nat)) :
    sizeHead ((l, c) :: r) = c.length := rfl

theorem stepModule (h20 : List Nat) (mods : List (Nat × List Nat))
    (hwf : wfCompact h20 mods) :
    ∀ (ms : List (Nat × List Nat)) (S PS : Nat), Walk mods S PS ms →
      ∀ k', k' ≤ 36 + (modBytes mods).length →
      ∃ st', process ⟨(mkTelegram h20 mods).take k', .moduleData, S, PS⟩ =
        ((if k' = 36 + (modBytes mods).length then [mkTelegram h20 mods] else []), st') ∧
        (k' < 36 + (modBytes mods).length → Rest h20 mods k' st') := by
  intro ms
  induction ms with
  | nil =>
    intro S PS hw k' hk'
    exact absurd rfl (walk_facts h20 mods hwf S PS [] hw).1
  | cons hd r ih =>
    obtain ⟨l, c⟩ := hd
    intro S PS hw k' hk'
    obtain ⟨hne, hok, hshead, hsum, pre, hpre, hpreLen⟩ := walk_facts h20 mods hwf _ _ _ hw
    rw [chainOk] at hok
    obtain ⟨h40, hl32, hc32, hcb, hs20, hsN, hokr⟩ := hok
    rw [sizeHead_cons] at hshead
    rw [modBytes_cons] at hsum hpre
    simp only [List.length_append] at hsum
    have hPSle : PS ≤ (modBytes mods).length := by omega
    have hlen : ((mkTelegram h20 mods).take k').length = k' := by
      rw [List.length_take, mkTelegramC_length h20 mods hwf.1]; omega
    by_cases hg1 : k' < 32 + PS
    · refine ⟨⟨(mkTelegram h20 mods).take k', .moduleData, S, PS⟩, ?_, ?_⟩
      · rw [process, if_pos (by rw [hlen]; exact hg1), if_neg (by omega)]
      · intro _
        exact Rest.module k' S PS _ hw hg1
    · have hg1' : ¬ ((mkTelegram h20 mods).take k').length < 32 + PS := by
        rw [hlen]; omega
      have hg2 : ¬ ((mkTelegram h20 mods).take k').length < S + 20 + 4 := by
        rw [hlen]; omega
      have hnl : leDecode (pySlice ((mkTelegram h20 mods).take k') (S + 20) 4) = l := by
        rw [pySlice_take _ _ _ _ (by omega),
          slice_module h20 mods S 20 4 c (modBytes r) pre hpre hpreLen (by omega),
          hs20, leDecode_le4 _ hl32]
      have hsr32 : sizeHead r < 2 ^ 32 := by
        cases r with
        | nil => rw [sizeHead_nil]; norm_num
        | cons hd2 r2 =>
          obtain ⟨l2, c2⟩ := hd2
          rw [chainOk] at hokr
          rw [sizeHead_cons]
          exact hokr.2.2.1
      have hnms : leDecode (pySlice ((mkTelegram h20 mods).take k') (S + (36 + 28 * l)) 4) =
          sizeHead r := by
        rw [pySlice_take _ _ _ _ (by omega),
          slice_module h20 mods S (36 + 28 * l) 4 c (modBytes r) pre hpre hpreLen (by omega),
          hsN, leDecode_le4 _ hsr32]
      rw [process, if_neg hg1', if_neg hg2]
      simp only [hnl]
      rw [show S + 36 + 28 * l = S + (36 + 28 * l) from by omega]
      rw [if_neg (by rw [hlen]; omega), hnms]
      cases r with
      | nil =>
        rw [sizeHead_nil]
        have hPSM : PS = (modBytes mods).length := by
          rw [modBytes_nil] at hsum
          simp at hsum
          omega
        rw [if_pos rfl, hPSM]
        refine ⟨if k' = 36 + (modBytes mods).length then
            ⟨[], .stx, S, (modBytes mods).length⟩
          else ⟨(mkTelegram h20 mods).take k', .crc, S, (modBytes mods).length⟩, ?_, ?_⟩
        · rw [stepCrcC h20 mods hwf S k' hk']
        · intro hklt
          rw [if_neg (by omega)]
          exact Rest.crcR k' S (modBytes mods).length l c (hPSM ▸ hw) (by omega)
      | cons hd2 r2 =>
        obtain ⟨l2, c2⟩ := hd2
        rw [chainOk] at hokr
        rw [sizeHead_cons]
        rw [if_neg (by omega)]
        have hw2 : Walk mods (32 + PS) (PS + c2.length) ((l2, c2) :: r2) := by
          have := Walk.step S PS l c ((l2, c2) :: r2) hw (by simp)
          rw [sizeHead_cons] at this
          exact this
        exact ih (32 + PS) (PS + c2.length) hw2 k' hk'

theorem modBytes_ge (mods : List (Nat × List Nat)) (hne : mods ≠ []) (hok : chainOk mods) :
    40 ≤ (modBytes mods).length ∧ 40 ≤ sizeHead mods := by
  obtain ⟨⟨l, c⟩, r, rfl⟩ := List.exists_cons_of_ne_nil hne
  rw [chainOk] at hok
  rw [modBytes_cons, sizeHead_cons]
  simp only [List.length_append]
  omega

theorem slice_firstSize (h20 : List Nat) (mods : List (Nat × List Nat))
    (hwf : wfCompact h20 mods) :
    leDecode (pySlice (mkTelegram h20 mods) 28 4) = sizeHead mods := by
  have hsz : sizeHead mods < 2 ^ 32 := by
    obtain ⟨⟨l, c⟩, r, rfl⟩ := List.exists_cons_of_ne_nil hwf.2.1
    have hok := hwf.2.2.1
    rw [chainOk] at hok
    rw [sizeHead_cons]
    exact hok.2.2.1
  rw [show mkTelegram h20 mods =
      (DELIM ++ h20) ++ (le4 (sizeHead mods) ++
        (modBytes mods ++ le4 (crc32 (preBytes h20 mods)))) from by
    simp [mkTelegram, preBytes],
    pySlice_append_at _ _ 28 4 (by simp [DELIM, hwf.1]),
    take_len_append _ _ 4 (le4_length _), leDecode_le4 _ hsz]

theorem leadsC_take (h20 : List Nat) (mods : List (Nat × List Nat))
    (hwf : wfCompact h20 mods) (k : Nat) (h8 : 8 ≤ k) :
    leadsWith DELIM ((mkTelegram h20 mods).take k) = true := by
  rw [leadsWith_iff, List.take_take]
  have hmin : min (DELIM : List Nat).length k = 8 := by simp [DELIM]; omega
  rw [hmin, show mkTelegram h20 mods =
      DELIM ++ (h20 ++ (le4 (sizeHead mods) ++
        (modBytes mods ++ le4 (crc32 (preBytes h20 mods))))) from by
    simp [mkTelegram, preBytes],
    take_len_append _ _ 8 (by simp [DELIM])]

theorem stepHeaderC (h20 : List Nat) (mods : List (Nat × List Nat))
    (hwf : wfCompact h20 mods) (k' : Nat) (h8 : 8 ≤ k')
    (hk' : k' ≤ 36 + (modBytes mods).length) :
    ∃ st', process ⟨(mkTelegram h20 mods).take k', .header, 0, 0⟩ =
      ((if k' = 36 + (modBytes mods).length then [mkTelegram h20 mods] else []), st') ∧
      (k' < 36 + (modBytes mods).length → Rest h20 mods k' st') := by
  have hlen : ((mkTelegram h20 mods).take k').length = k' := by
    rw [List.length_take, mkTelegramC_length h20 mods hwf.1]; omega
  have hM := modBytes_ge mods hwf.2.1 hwf.2.2.1
  by_cases h32 : k' < 32
  · refine ⟨⟨(mkTelegram h20 mods).take k', .header, 0, 0⟩, ?_, ?_⟩
    · rw [process, if_pos (by rw [hlen]; exact h32), if_neg (by omega)]
    · intro _
      exact Rest.header k' h8 h32
  · have hps : leDecode (pySlice ((mkTelegram h20 mods).take k') 28 4) = sizeHead mods := by
      rw [pySlice_take _ _ _ _ (by omega), slice_firstSize h20 mods hwf]
    rw [process, if_neg (by rw [hlen]; omega)]
    simp only [hps]
    rw [if_neg (by omega)]
    exact stepModule h20 mods hwf mods 32 (sizeHead mods) (Walk.base) k' hk'

theorem stepStxC (h20 : List Nat) (mods : List (Nat × List Nat))
    (hwf : wfCompact h20 mods) (k' : Nat) (hk' : k' ≤ 36 + (modBytes mods).length) :
    ∃ st', process ⟨(mkTelegram h20 mods).take k', .stx, 0, 0⟩ =
      ((if k' = 36 + (modBytes mods).length then [mkTelegram h20 mods] else []), st') ∧
      (k' < 36 + (modBytes mods).length → Rest h20 mods k' st') := by
  have hlen : ((mkTelegram h20 mods).take k').length = k' := by
    rw [List.length_take, mkTelegramC_length h20 mods hwf.1]; omega
  have hM := modBytes_ge mods hwf.2.1 hwf.2.2.1
  by_cases h8 : k' < 8
  · refine ⟨⟨(mkTelegram h20 mods).take k', .stx, 0, 0⟩, ?_, ?_⟩
    · rw [process, findSub_none_short _ _ (by rw [hlen]; simp [DELIM]; omega),
        if_neg (by rw [hlen]; omega), if_neg (by omega)]
    · intro _
      exact Rest.stx k' h8
  · rw [process]
    simp only [findSub_zero _ _ (leadsC_take h20 mods hwf k' (by omega)), List.drop_zero]
    exact stepHeaderC h20 mods hwf k' (by omega) hk'

theorem rest_buffer (h20 : List Nat) (mods : List (Nat × List Nat)) (k : Nat)
    (st : St) (h : Rest h20 mods k st) :
    st.buffer = (mkTelegram h20 mods).take k := by
  cases h <;> rfl

theorem stepAnyC (h20 : List Nat) (mods : List (Nat × List Nat))
    (hwf : wfCompact h20 mods) (k k' : Nat) (st : St)
    (hrest : Rest h20 mods k st) (hkk : k ≤ k')
    (hk' : k' ≤ 36 + (modBytes mods).length) :
    ∃ st', process ⟨(mkTelegram h20 mods).take k', st.state, st.metaPos, st.payloadSize⟩ =
      ((if k' = 36 + (modBytes mods).length then [mkTelegram h20 mods] else []), st') ∧
      (k' < 36 + (modBytes mods).length → Rest h20 mods k' st') := by
  cases hrest with
  | stx h8 => exact stepStxC h20 mods hwf k' hk'
  | header h8 h32 => exact stepHeaderC h20 mods hwf k' (by omega) hk'
  | module S PS ms hw hk32 => exact stepModule h20 mods hwf ms S PS hw k' hk'
  | crcR S PS l c hw h36 =>
    have hfacts := walk_facts h20 mods hwf S PS _ hw
    have hPSM : PS = (modBytes mods).length := by
      obtain ⟨_, _, hshead, hsum, _⟩ := hfacts
      rw [sizeHead_cons] at hshead
      rw [modBytes_cons, modBytes_nil] at hsum
      simp only [List.length_append, List.length_nil] at hsum
      omega
    subst hPSM
    refine ⟨if k' = 36 + (modBytes mods).length then ⟨[], .stx, S, (modBytes mods).length⟩
      else ⟨(mkTelegram h20 mods).take k', .crc, S, (modBytes mods).length⟩, ?_, ?_⟩
    · exact stepCrcC h20 mods hwf S k' hk'
    · intro hklt
      rw [if_neg (by omega)]
      exact Rest.crcR k' S (modBytes mods).length l c hw (by omega)

theorem feedLoopC (h20 : List Nat) (mods : List (Nat × List Nat))
    (hwf : wfCompact h20 mods) :
    ∀ (n k : Nat) (st : St), 36 + (modBytes mods).length - k ≤ n →
      k < 36 + (modBytes mods).length → Rest h20 mods k st →
      (feedAll extract st (chunk3 ((mkTelegram h20 mods).drop k))).1 =
        List.replicate ((chunk3 ((mkTelegram h20 mods).drop k)).length - 1) [] ++
          [[mkTelegram h20 mods]] := by
  intro n
  induction n with
  | zero => intro k st h1 h2 _; omega
  | succ m ih =>
    intro k st h1 h2 hrest
    have hTlen : (mkTelegram h20 mods).length = 36 + (modBytes mods).length :=
      mkTelegramC_length h20 mods hwf.1
    rw [chunk3_drop _ _ (by omega)]
    rw [feedAll_cons]
    have hbuf : st.buffer ++ ((mkTelegram h20 mods).drop k).take 3 =
        (mkTelegram h20 mods).take (k + 3) := by
      rw [rest_buffer h20 mods k st hrest, List.take_add]
    have hext : extract st (((mkTelegram h20 mods).drop k).take 3) =
        process ⟨(mkTelegram h20 mods).take (k + 3), st.state, st.metaPos, st.payloadSize⟩ := by
      rw [extract, hbuf]
    rcases Nat.lt_or_ge (k + 3) (36 + (modBytes mods).length) with hlt | hge
    · obtain ⟨st', hproc, hrest'⟩ := stepAnyC h20 mods hwf k (k + 3) st hrest (by omega)
        (by omega)
      rw [hext, hproc, if_neg (by omega)]
      have hrec := ih (k + 3) st' (by omega) hlt (hrest' (by omega))
      simp only [hrec]
      have hc : chunk3 ((mkTelegram h20 mods).drop (k + 3)) ≠ [] := by
        apply chunk3_ne_nil
        intro hcon
        have := congrArg List.length hcon
        simp at this
        omega
      have hlen1 : 1 ≤ (chunk3 ((mkTelegram h20 mods).drop (k + 3))).length := by
        cases hx : chunk3 ((mkTelegram h20 mods).drop (k + 3)) with
        | nil => exact absurd hx hc
        | cons a as => simp
      simp only [List.length_cons]
      rw [show (chunk3 ((mkTelegram h20 mods).drop (k + 3))).length + 1 - 1 =
        ((chunk3 ((mkTelegram h20 mods).drop (k + 3))).length - 1) + 1 from by omega]
      rw [List.replicate_succ]
      simp
    · have htk : (mkTelegram h20 mods).take (k + 3) =
          (mkTelegram h20 mods).take (36 + (modBytes mods).length) := by
        rw [takeC_eq_self h20 mods hwf.1, List.take_of_length_le (by omega)]
      obtain ⟨st', hproc, _⟩ := stepAnyC h20 mods hwf k (36 + (modBytes mods).length) st
        hrest (by omega) (by omega)
      rw [hext, htk, hproc, if_pos rfl]
      have hdone : (mkTelegram h20 mods).drop (k + 3) = [] :=
        List.drop_eq_nil_of_le (by omega)
      rw [hdone, chunk3_nil]
      simp [feedAll]

end CompactSE

/-- Every state the msgpack machine returns is a fixpoint of the machine. -/
theorem MsgSE.process_fix (st : MsgSE.St) :
    MsgSE.process (MsgSE.process st).2 = ([], (MsgSE.process st).2) := by
  induction st using MsgSE.process.induct with
  | case1 buf sz hf hlen =>
    -- stx, none found, long buffer: cleared
    rw [MsgSE.process, hf]
    simp only [if_pos hlen]
    rw [MsgSE.process]
    simp [findSub, leadsWith, MsgSE.STXM]
  | case2 buf sz hf hlen =>
    rw [MsgSE.process, hf]
    simp only [if_neg hlen]
    rw [MsgSE.process, hf]
    simp only [if_neg hlen]
  | case3 buf sz i hf ih =>
    rw [MsgSE.process, hf]
    exact ih
  | case4 buf sz hlen =>
    rw [MsgSE.process]
    simp only [if_pos hlen]
    rw [MsgSE.process]
    simp only [if_pos hlen]
  | case5 buf sz hlen s2 hz ih =>
    rw [MsgSE.process]
    simp only [if_neg hlen, if_pos hz]
    exact ih
  | case6 buf sz hlen s2 hz ih =>
    rw [MsgSE.process]
    simp only [if_neg hlen, if_neg hz]
    exact ih
  | case7 buf sz hlen =>
    rw [MsgSE.process]
    simp only [if_pos hlen]
    rw [MsgSE.process]
    simp only [if_pos hlen]
  | case8 buf sz hlen expected computed hne ih =>
    rw [MsgSE.process]
    simp only [if_neg hlen]
    rw [if_pos hne]
    exact ih
  | case9 buf sz hlen expected computed hne ih =>
    rw [MsgSE.process]
    simp only [if_neg hlen]
    rw [if_neg hne]
    simpa using ih

theorem CompactSE.processC_fix (st : CompactSE.St) :
    CompactSE.process (CompactSE.process st).2 = ([], (CompactSE.process st).2) := by
  induction st using CompactSE.process.induct with
  | case1 buf mp ps hf hlen =>
    rw [CompactSE.process, hf]
    simp only [if_pos hlen]
    rw [CompactSE.process]
    simp [findSub, leadsWith, CompactSE.DELIM]
  | case2 buf mp ps hf hlen =>
    rw [CompactSE.process, hf]
    simp only [if_neg hlen]
    rw [CompactSE.process, hf]
    simp only [if_neg hlen]
  | case3 buf mp ps i hf ih =>
    rw [CompactSE.process, hf]
    exact ih
  | case4 buf mp ps hlen =>
    rw [CompactSE.process]
    simp only [if_pos hlen]
    rw [CompactSE.process]
    simp only [if_pos hlen]
  | case5 buf mp ps hlen p2 hz ih =>
    rw [CompactSE.process]
    simp only [if_neg hlen, if_pos hz]
    exact ih
  | case6 buf mp ps hlen p2 hz ih =>
    rw [CompactSE.process]
    simp only [if_neg hlen, if_neg hz]
    exact ih
  | case7 buf mp ps hlen =>
    rw [CompactSE.process]
    simp only [if_pos hlen]
    rw [CompactSE.process]
    simp only [if_pos hlen]
  | case8 buf mp ps hlen hlen2 =>
    rw [CompactSE.process]
    simp only [if_neg hlen, if_pos hlen2]
    rw [CompactSE.process]
    simp only [if_neg hlen, if_pos hlen2]
  | case9 buf mp ps hlen hlen2 nl nsp hlen3 =>
    rw [CompactSE.process]
    simp only [if_neg hlen, if_neg hlen2, if_pos hlen3]
    rw [CompactSE.process]
    simp only [if_neg hlen, if_neg hlen2, if_pos hlen3]
  | case10 buf mp ps hlen hlen2 nl nsp hlen3 nms hz ih =>
    rw [CompactSE.process]
    simp only [if_neg hlen, if_neg hlen2, if_neg hlen3, if_pos hz]
    exact ih
  | case11 buf mp ps hlen hlen2 nl nsp hlen3 nms hz ih =>
    rw [CompactSE.process]
    simp only [if_neg hlen, if_neg hlen2, if_neg hlen3, if_neg hz]
    exact ih
  | case12 buf mp ps hlen =>
    rw [CompactSE.process]
    simp only [if_pos hlen]
    rw [CompactSE.process]
    simp only [if_pos hlen]
  | case13 buf mp ps hlen expected computed hne ih =>
    rw [CompactSE.process]
    simp only [if_neg hlen]
    rw [if_pos hne]
    exact ih
  | case14 buf mp ps hlen expected computed hne ih =>
    rw [CompactSE.process]
    simp only [if_neg hlen]
    rw [if_neg hne]
    simpa using ih

theorem MsgSE.process_crcOk (st : MsgSE.St) :
    ∀ pkg ∈ (MsgSE.process st).1, 12 ≤ pkg.length ∧
      leDecode (pkg.drop (pkg.length - 4)) = crc32 (pySlice pkg 8 (pkg.length - 12)) := by
  induction st using MsgSE.process.induct with
  | case1 buf sz hf hlen => rw [MsgSE.process, hf]; simp [if_pos hlen]
  | case2 buf sz hf hlen => rw [MsgSE.process, hf]; simp [if_neg hlen]
  | case3 buf sz i hf ih => rw [MsgSE.process, hf]; exact ih
  | case4 buf sz hlen => rw [MsgSE.process]; simp [if_pos hlen]
  | case5 buf sz hlen s2 hz ih =>
    rw [MsgSE.process]; simp only [if_neg hlen, if_pos hz]; exact ih
  | case6 buf sz hlen s2 hz ih =>
    rw [MsgSE.process]; simp only [if_neg hlen, if_neg hz]; exact ih
  | case7 buf sz hlen => rw [MsgSE.process]; simp [if_pos hlen]
  | case8 buf sz hlen expected computed hne ih =>
    rw [MsgSE.process]; simp only [if_neg hlen]; rw [if_pos hne]; exact ih
  | case9 buf sz hlen expected computed hne ih =>
    rw [MsgSE.process]
    simp only [if_neg hlen]
    rw [if_neg hne]
    simp only [not_lt] at hlen
    simp only [not_not] at hne
    intro pkg hpkg
    simp only [List.mem_cons] at hpkg
    rcases hpkg with rfl | hmem
    · have hlen2 : (buf.take (4 + 4 + sz + 4)).length = sz + 12 := by
        simp only [List.length_take]
        omega
      refine ⟨by omega, ?_⟩
      rw [hlen2]
      have h1 : (buf.take (4 + 4 + sz + 4)).drop (sz + 12 - 4) = pySlice buf (4 + 4 + sz) 4 := by
        rw [List.drop_take]
        simp only [pySlice]
        congr 1
        · omega
        · congr 1; omega
      have h2 : pySlice (buf.take (4 + 4 + sz + 4)) 8 (sz + 12 - 12) =
          pySlice buf (4 + 4) sz := by
        have : sz + 12 - 12 = sz := by omega
        rw [this, pySlice_take _ _ _ _ (by omega)]
      rw [h1, h2]
      exact hne
    · exact ih pkg hmem

theorem CompactSE.processC_crcOk (st : CompactSE.St) :
    ∀ pkg ∈ (CompactSE.process st).1, 36 ≤ pkg.length ∧
      leDecode (pkg.drop (pkg.length - 4)) = crc32 (pkg.take (pkg.length - 4)) := by
  induction st using CompactSE.process.induct with
  | case1 buf mp ps hf hlen => rw [CompactSE.process, hf]; simp [if_pos hlen]
  | case2 buf mp ps hf hlen => rw [CompactSE.process, hf]; simp [if_neg hlen]
  | case3 buf mp ps i hf ih => rw [CompactSE.process, hf]; exact ih
  | case4 buf mp ps hlen => rw [CompactSE.process]; simp [if_pos hlen]
  | case5 buf mp ps hlen p2 hz ih =>
    rw [CompactSE.process]; simp only [if_neg hlen, if_pos hz]; exact ih
  | case6 buf mp ps hlen p2 hz ih =>
    rw [CompactSE.process]; simp only [if_neg hlen, if_neg hz]; exact ih
  | case7 buf mp ps hlen => rw [CompactSE.process]; simp [if_pos hlen]
  | case8 buf mp ps hlen hlen2 => rw [CompactSE.process]; simp [if_neg hlen, if_pos hlen2]
  | case9 buf mp ps hlen hlen2 nl nsp hlen3 =>
    rw [CompactSE.process]; simp [if_neg hlen, if_neg hlen2, if_pos hlen3]
  | case10 buf mp ps hlen hlen2 nl nsp hlen3 nms hz ih =>
    rw [CompactSE.process]
    simp only [if_neg hlen, if_neg hlen2, if_neg hlen3, if_pos hz]
    exact ih
  | case11 buf mp ps hlen hlen2 nl nsp hlen3 nms hz ih =>
    rw [CompactSE.process]
    simp only [if_neg hlen, if_neg hlen2, if_neg hlen3, if_neg hz]
    exact ih
  | case12 buf mp ps hlen => rw [CompactSE.process]; simp [if_pos hlen]
  | case13 buf mp ps hlen expected computed hne ih =>
    rw [CompactSE.process]; simp only [if_neg hlen]; rw [if_pos hne]; exact ih
  | case14 buf mp ps hlen expected computed hne ih =>
    rw [CompactSE.process]
    simp only [if_neg hlen]
    rw [if_neg hne]
    simp only [not_lt] at hlen
    simp only [not_not] at hne
    intro pkg hpkg
    simp only [List.mem_cons] at hpkg
    rcases hpkg with rfl | hmem
    · have hlen2 : (buf.take (32 + ps + 4)).length = 32 + ps + 4 := by
        simp only [List.length_take]
        omega
      refine ⟨by omega, ?_⟩
      rw [hlen2]
      have h1 : (buf.take (32 + ps + 4)).drop (32 + ps + 4 - 4) = pySlice buf (32 + ps) 4 := by
        rw [List.drop_take, (by omega : 32 + ps + 4 - 4 = 32 + ps),
          (by omega : 32 + ps + 4 - (32 + ps) = 4)]
        rfl
      have h2 : (buf.take (32 + ps + 4)).take (32 + ps + 4 - 4) = buf.take (32 + ps) := by
        rw [List.take_take]
        congr 1
        omega
      rw [h1, h2]
      exact hne
    · exact ih pkg hmem



/-! ## Claim theorems, witnesses and counterexamples -/

/-! Literal byte values of the concrete telegrams (the CRC words computed
once and for all), and the stability of every read `parse_payload`
performs on `preC` under appended trailing bytes. -/

theorem preC_bytes : preC = [2, 2, 2, 2, 1, 0, 0, 0, 77, 1, 0, 0, 0, 0, 0, 0, 188, 1, 0,
    0, 0, 0, 0, 0, 1, 0, 0, 0, 44, 0, 0, 0, 154, 2, 0, 0, 0, 0, 0, 0, 231, 3, 0, 0, 0, 0,
    0, 0, 43, 2, 0, 0, 0, 0, 0, 0, 0, 0, 0, 0, 2, 0, 0, 0, 0, 0, 128, 63, 0, 0, 0, 0, 1,
    1, 0, 0] := by decide

theorem preCbad_bytes : preCbad = [2, 2, 2, 2, 1, 0, 0, 0, 77, 1, 0, 0, 0, 0, 0, 0, 188,
    1, 0, 0, 0, 0, 0, 0, 1, 0, 0, 0, 44, 0, 0, 0, 154, 2, 0, 0, 0, 0, 0, 0, 231, 3, 0, 0,
    0, 0, 0, 0, 43, 2, 0, 0, 0, 0, 0, 0, 0, 0, 0, 0, 2, 0, 0, 0, 0, 0, 128, 63, 0, 0, 0,
    0, 1, 0, 0, 0] := by decide

theorem crc_preC : crc32 preC = 72181493 := by
  rw [preC_bytes, crc32]
  rw [List.foldl_cons, show crcByte 4294967295 2 = 3287511390 from by decide]
  rw [List.foldl_cons, show crcByte 3287511390 2 = 1646194350 from by decide]
  rw [List.foldl_cons, show crcByte 1646194350 2 = 3741511981 from by decide]
  rw [List.foldl_cons, show crcByte 3741511981 2 = 2869837736 from by decide]
  rw [List.foldl_cons, show crcByte 2869837736 1 = 2946569587 from by decide]
  rw [List.foldl_cons, show crcByte 2946569587 0 = 3382935955 from by decide]
  rw [List.foldl_cons, show crcByte 3382935955 0 = 1775198591 from by decide]
  rw [List.foldl_cons, show crcByte 1775198591 0 = 3235095500 from by decide]
  rw [List.foldl_cons, show crcByte 3235095500 77 = 2592038933 from by decide]
  rw [List.foldl_cons, show crcByte 2592038933 1 = 440445725 from by decide]
  rw [List.foldl_cons, show crcByte 440445725 0 = 1662790770 from by decide]
  rw [List.foldl_cons, show crcByte 1662790770 0 = 3194489916 from by decide]
  rw [List.foldl_cons, show crcByte 3194489916 0 = 802231435 from by decide]
  rw [List.foldl_cons, show crcByte 802231435 0 = 2051378108 from by decide]
  rw [List.foldl_cons, show crcByte 2051378108 0 = 3266165292 from by decide]
  rw [List.foldl_cons, show crcByte 3266165292 0 = 840614233 from by decide]
  rw [List.foldl_cons, show crcByte 840614233 188 = 3495038006 from by decide]
  rw [List.foldl_cons, show crcByte 3495038006 1 = 3094214403 from by decide]
  rw [List.foldl_cons, show crcByte 3094214403 0 = 2578529357 from by decide]
  rw [List.foldl_cons, show crcByte 2578529357 0 = 150244369 from by decide]
  rw [List.foldl_cons, show crcByte 150244369 0 = 1790497918 from by decide]
  rw [List.foldl_cons, show crcByte 1790497918 0 = 3084379375 from by decide]
  rw [List.foldl_cons, show crcByte 3084379375 0 = 805447693 from by decide]
  rw [List.foldl_cons, show crcByte 805447693 0 = 2122415765 from by decide]
  rw [List.foldl_cons, show crcByte 2122415765 1 = 4145862179 from by decide]
  rw [List.foldl_cons, show crcByte 4145862179 0 = 2727374244 from by decide]
  rw [List.foldl_cons, show crcByte 2727374244 0 = 3508139932 from by decide]
  rw [List.foldl_cons, show crcByte 3508139932 0 = 4184393368 from by decide]
  rw [List.foldl_cons, show crcByte 4184393368 44 = 3438616403 from by decide]
  rw [List.foldl_cons, show crcByte 3438616403 0 = 4071552337 from by decide]
  rw [List.foldl_cons, show crcByte 4071552337 0 = 480169879 from by decide]
  rw [List.foldl_cons, show crcByte 480169879 0 = 1853331496 from by decide]
  rw [List.foldl_cons, show crcByte 1853331496 154 = 620864824 from by decide]
  rw [List.foldl_cons, show crcByte 620864824 2 = 3324631063 from by decide]
  rw [List.foldl_cons, show crcByte 3324631063 0 = 2199235615 from by decide]
  rw [List.foldl_cons, show crcByte 2199235615 0 = 2374703193 from by decide]
  rw [List.foldl_cons, show crcByte 2374703193 0 = 305816136 from by decide]
  rw [List.foldl_cons, show crcByte 305816136 0 = 2014704576 from by decide]
  rw [List.foldl_cons, show crcByte 2014704576 0 = 2602358595 from by decide]
  rw [List.foldl_cons, show crcByte 2602358595 0 = 4014869757 from by decide]
  rw [List.foldl_cons, show crcByte 4014869757 231 = 4253923190 from by decide]
  rw [List.foldl_cons, show crcByte 4253923190 3 = 546441220 from by decide]
  rw [List.foldl_cons, show crcByte 546441220 0 = 122508817 from by decide]
  rw [List.foldl_cons, show crcByte 122508817 0 = 1790406052 from by decide]
  rw [List.foldl_cons, show crcByte 1790406052 0 = 3520188572 from by decide]
  rw [List.foldl_cons, show crcByte 3520188572 0 = 4184346303 from by decide]
  rw [List.foldl_cons, show crcByte 4184346303 0 = 1529333267 from by decide]
  rw [List.foldl_cons, show crcByte 1529333267 0 = 2229626392 from by decide]
  rw [List.foldl_cons, show crcByte 2229626392 43 = 3209987184 from by decide]
  rw [List.foldl_cons, show crcByte 3209987184 2 = 3199485076 from by decide]
  rw [List.foldl_cons, show crcByte 3199485076 0 = 4158448409 from by decide]
  rw [List.foldl_cons, show crcByte 4158448409 0 = 1687974947 from by decide]
  rw [List.foldl_cons, show crcByte 1687974947 0 = 2718166278 from by decide]
  rw [List.foldl_cons, show crcByte 2718166278 0 = 3921782488 from by decide]
  rw [List.foldl_cons, show crcByte 3921782488 0 = 2296486720 from by decide]
  rw [List.foldl_cons, show crcByte 2296486720 0 = 1985257483 from by decide]
  rw [List.foldl_cons, show crcByte 1985257483 0 = 2544143656 from by decide]
  rw [List.foldl_cons, show crcByte 2544143656 0 = 891423863 from by decide]
  rw [List.foldl_cons, show crcByte 891423863 0 = 3461662355 from by decide]
  rw [List.foldl_cons, show crcByte 3461662355 0 = 1774753336 from by decide]
  rw [List.foldl_cons, show crcByte 1774753336 2 = 3328512292 from by decide]
  rw [List.foldl_cons, show crcByte 3328512292 0 = 1019576768 from by decide]
  rw [List.foldl_cons, show crcByte 1019576768 0 = 2606237489 from by decide]
  rw [List.foldl_cons, show crcByte 2606237489 0 = 1363499069 from by decide]
  rw [List.foldl_cons, show crcByte 1363499069 0 = 1480132937 from by decide]
  rw [List.foldl_cons, show crcByte 1480132937 0 = 257474621 from by decide]
  rw [List.foldl_cons, show crcByte 257474621 128 = 3051329521 from by decide]
  rw [List.foldl_cons, show crcByte 3051329521 63 = 2087268384 from by decide]
  rw [List.foldl_cons, show crcByte 2087268384 0 = 991054328 from by decide]
  rw [List.foldl_cons, show crcByte 991054328 0 = 3009243239 from by decide]
  rw [List.foldl_cons, show crcByte 3009243239 0 = 3546655123 from by decide]
  rw [List.foldl_cons, show crcByte 3546655123 0 = 1775609687 from by decide]
  rw [List.foldl_cons, show crcByte 1775609687 1 = 2187403622 from by decide]
  rw [List.foldl_cons, show crcByte 2187403622 1 = 3545535962 from by decide]
  rw [List.foldl_cons, show crcByte 3545535962 0 = 1725263711 from by decide]
  rw [List.foldl_cons, show crcByte 1725263711 0 = 4222785802 from by decide]
  rw [List.foldl_nil]
  decide

theorem crc_preCbad : crc32 preCbad = 93260994 := by
  rw [preCbad_bytes, crc32]
  rw [List.foldl_cons, show crcByte 4294967295 2 = 3287511390 from by decide]
  rw [List.foldl_cons, show crcByte 3287511390 2 = 1646194350 from by decide]
  rw [List.foldl_cons, show crcByte 1646194350 2 = 3741511981 from by decide]
  rw [List.foldl_cons, show crcByte 3741511981 2 = 2869837736 from by decide]
  rw [List.foldl_cons, show crcByte 2869837736 1 = 2946569587 from by decide]
  rw [List.foldl_cons, show crcByte 2946569587 0 = 3382935955 from by decide]
  rw [List.foldl_cons, show crcByte 3382935955 0 = 1775198591 from by decide]
  rw [List.foldl_cons, show crcByte 1775198591 0 = 3235095500 from by decide]
  rw [List.foldl_cons, show crcByte 3235095500 77 = 2592038933 from by decide]
  rw [List.foldl_cons, show crcByte 2592038933 1 = 440445725 from by decide]
  rw [List.foldl_cons, show crcByte 440445725 0 = 1662790770 from by decide]
  rw [List.foldl_cons, show crcByte 1662790770 0 = 3194489916 from by decide]
  rw [List.foldl_cons, show crcByte 3194489916 0 = 802231435 from by decide]
  rw [List.foldl_cons, show crcByte 802231435 0 = 2051378108 from by decide]
  rw [List.foldl_cons, show crcByte 2051378108 0 = 3266165292 from by decide]
  rw [List.foldl_cons, show crcByte 3266165292 0 = 840614233 from by decide]
  rw [List.foldl_cons, show crcByte 840614233 188 = 3495038006 from by decide]
  rw [List.foldl_cons, show crcByte 3495038006 1 = 3094214403 from by decide]
  rw [List.foldl_cons, show crcByte 3094214403 0 = 2578529357 from by decide]
  rw [List.foldl_cons, show crcByte 2578529357 0 = 150244369 from by decide]
  rw [List.foldl_cons, show crcByte 150244369 0 = 1790497918 from by decide]
  rw [List.foldl_cons, show crcByte 1790497918 0 = 3084379375 from by decide]
  rw [List.foldl_cons, show crcByte 3084379375 0 = 805447693 from by decide]
  rw [List.foldl_cons, show crcByte 805447693 0 = 2122415765 from by decide]
  rw [List.foldl_cons, show crcByte 2122415765 1 = 4145862179 from by decide]
  rw [List.foldl_cons, show crcByte 4145862179 0 = 2727374244 from by decide]
  rw [List.foldl_cons, show crcByte 2727374244 0 = 3508139932 from by decide]
  rw [List.foldl_cons, show crcByte 3508139932 0 = 4184393368 from by decide]
  rw [List.foldl_cons, show crcByte 4184393368 44 = 3438616403 from by decide]
  rw [List.foldl_cons, show crcByte 3438616403 0 = 4071552337 from by decide]
  rw [List.foldl_cons, show crcByte 4071552337 0 = 480169879 from by decide]
  rw [List.foldl_cons, show crcByte 480169879 0 = 1853331496 from by decide]
  rw [List.foldl_cons, show crcByte 1853331496 154 = 620864824 from by decide]
  rw [List.foldl_cons, show crcByte 620864824 2 = 3324631063 from by decide]
  rw [List.foldl_cons, show crcByte 3324631063 0 = 2199235615 from by decide]
  rw [List.foldl_cons, show crcByte 2199235615 0 = 2374703193 from by decide]
  rw [List.foldl_cons, show crcByte 2374703193 0 = 305816136 from by decide]
  rw [List.foldl_cons, show crcByte 305816136 0 = 2014704576 from by decide]
  rw [List.foldl_cons, show crcByte 2014704576 0 = 2602358595 from by decide]
  rw [List.foldl_cons, show crcByte 2602358595 0 = 4014869757 from by decide]
  rw [List.foldl_cons, show crcByte 4014869757 231 = 4253923190 from by decide]
  rw [List.foldl_cons, show crcByte 4253923190 3 = 546441220 from by decide]
  rw [List.foldl_cons, show crcByte 546441220 0 = 122508817 from by decide]
  rw [List.foldl_cons, show crcByte 122508817 0 = 1790406052 from by decide]
  rw [List.foldl_cons, show crcByte 1790406052 0 = 3520188572 from by decide]
  rw [List.foldl_cons, show crcByte 3520188572 0 = 4184346303 from by decide]
  rw [List.foldl_cons, show crcByte 4184346303 0 = 1529333267 from by decide]
  rw [List.foldl_cons, show crcByte 1529333267 0 = 2229626392 from by decide]
  rw [List.foldl_cons, show crcByte 2229626392 43 = 3209987184 from by decide]
  rw [List.foldl_cons, show crcByte 3209987184 2 = 3199485076 from by decide]
  rw [List.foldl_cons, show crcByte 3199485076 0 = 4158448409 from by decide]
  rw [List.foldl_cons, show crcByte 4158448409 0 = 1687974947 from by decide]
  rw [List.foldl_cons, show crcByte 1687974947 0 = 2718166278 from by decide]
  rw [List.foldl_cons, show crcByte 2718166278 0 = 3921782488 from by decide]
  rw [List.foldl_cons, show crcByte 3921782488 0 = 2296486720 from by decide]
  rw [List.foldl_cons, show crcByte 2296486720 0 = 1985257483 from by decide]
  rw [List.foldl_cons, show crcByte 1985257483 0 = 2544143656 from by decide]
  rw [List.foldl_cons, show crcByte 2544143656 0 = 891423863 from by decide]
  rw [List.foldl_cons, show crcByte 891423863 0 = 3461662355 from by decide]
  rw [List.foldl_cons, show crcByte 3461662355 0 = 1774753336 from by decide]
  rw [List.foldl_cons, show crcByte 1774753336 2 = 3328512292 from by decide]
  rw [List.foldl_cons, show crcByte 3328512292 0 = 1019576768 from by decide]
  rw [List.foldl_cons, show crcByte 1019576768 0 = 2606237489 from by decide]
  rw [List.foldl_cons, show crcByte 2606237489 0 = 1363499069 from by decide]
  rw [List.foldl_cons, show crcByte 1363499069 0 = 1480132937 from by decide]
  rw [List.foldl_cons, show crcByte 1480132937 0 = 257474621 from by decide]
  rw [List.foldl_cons, show crcByte 257474621 128 = 3051329521 from by decide]
  rw [List.foldl_cons, show crcByte 3051329521 63 = 2087268384 from by decide]
  rw [List.foldl_cons, show crcByte 2087268384 0 = 991054328 from by decide]
  rw [List.foldl_cons, show crcByte 991054328 0 = 3009243239 from by decide]
  rw [List.foldl_cons, show crcByte 3009243239 0 = 3546655123 from by decide]
  rw [List.foldl_cons, show crcByte 3546655123 0 = 1775609687 from by decide]
  rw [List.foldl_cons, show crcByte 1775609687 1 = 2187403622 from by decide]
  rw [List.foldl_cons, show crcByte 2187403622 0 = 2756945228 from by decide]
  rw [List.foldl_cons, show crcByte 2756945228 0 = 2144230942 from by decide]
  rw [List.foldl_cons, show crcByte 2144230942 0 = 4201706301 from by decide]
  rw [List.foldl_nil]
  decide

theorem telC_bytes : telC = [2, 2, 2, 2, 1, 0, 0, 0, 77, 1, 0, 0, 0, 0, 0, 0, 188, 1, 0,
    0, 0, 0, 0, 0, 1, 0, 0, 0, 44, 0, 0, 0, 154, 2, 0, 0, 0, 0, 0, 0, 231, 3, 0, 0, 0, 0,
    0, 0, 43, 2, 0, 0, 0, 0, 0, 0, 0, 0, 0, 0, 2, 0, 0, 0, 0, 0, 128, 63, 0, 0, 0, 0, 1,
    1, 0, 0, 245, 102, 77, 4] := by
  show preC ++ le4 (crc32 preC) = _
  rw [crc_preC, preC_bytes]
  decide

theorem telCbad_bytes : telCbad = [2, 2, 2, 2, 1, 0, 0, 0, 77, 1, 0, 0, 0, 0, 0, 0, 188,
    1, 0, 0, 0, 0, 0, 0, 1, 0, 0, 0, 44, 0, 0, 0, 154, 2, 0, 0, 0, 0, 0, 0, 231, 3, 0, 0,
    0, 0, 0, 0, 43, 2, 0, 0, 0, 0, 0, 0, 0, 0, 0, 0, 2, 0, 0, 0, 0, 0, 128, 63, 0, 0, 0,
    0, 1, 0, 0, 0, 194, 12, 143, 5] := by
  show preCbad ++ le4 (crc32 preCbad) = _
  rw [crc_preCbad, preCbad_bytes]
  decide

theorem preC_len : preC.length = 76 := by rw [preC_bytes]; rfl

theorem hsl76 (junk : List Nat) (off n : Nat) (h : off + n ≤ 76) :
    pySlice (preC ++ junk) off n = pySlice preC off n :=
  pySlice_append_left preC junk off n (by rw [preC_len]; omega)

theorem readHeader_preC_junk (junk : List Nat) :
    Compact.readHeader (preC ++ junk) = (⟨1, 333, 444, 1, []⟩, 44) := by
  simp only [Compact.readHeader, Compact.readUint32, Compact.readUint64, Compact.readUint]
  rw [hsl76 junk 4 4 (by omega), hsl76 junk 8 8 (by omega), hsl76 junk 16 8 (by omega),
    hsl76 junk 24 4 (by omega), hsl76 junk 28 4 (by omega), preC_bytes]
  decide

theorem rmd_preC_junk (junk : List Nat) :
    Compact.readMetaData (preC ++ junk) 32 = .ok (meta44, 0, 76) := by
  have u1 : Compact.readUint64 (preC ++ junk) 32 = (666, 40) := by
    rw [Compact.readUint64, Compact.readUint, hsl76 junk 32 8 (by omega), preC_bytes]
    decide
  have u2 : Compact.readUint64 (preC ++ junk) 40 = (999, 48) := by
    rw [Compact.readUint64, Compact.readUint, hsl76 junk 40 8 (by omega), preC_bytes]
    decide
  have u3 : Compact.readUint32 (preC ++ junk) 48 = (555, 52) := by
    rw [Compact.readUint32, Compact.readUint, hsl76 junk 48 4 (by omega), preC_bytes]
    decide
  have u4 : Compact.readUint32 (preC ++ junk) 52 = (0, 56) := by
    rw [Compact.readUint32, Compact.readUint, hsl76 junk 52 4 (by omega), preC_bytes]
    decide
  have u5 : Compact.readUint32 (preC ++ junk) 56 = (0, 60) := by
    rw [Compact.readUint32, Compact.readUint, hsl76 junk 56 4 (by omega), preC_bytes]
    decide
  have u6 : Compact.readUint32 (preC ++ junk) 60 = (2, 64) := by
    rw [Compact.readUint32, Compact.readUint, hsl76 junk 60 4 (by omega), preC_bytes]
    decide
  have a1 : Compact.readUint64Array (preC ++ junk) 0 64 = .ok ([], 64) := by
    rw [Compact.readUint64Array, Compact.unpackArrayFrom, if_neg (by decide),
      if_pos (by simp only [List.length_append, preC_len]; omega)]
    rfl
  have a2 : Compact.readFloat32Array (preC ++ junk) 0 64 = .ok ([], 64) := by
    rw [Compact.readFloat32Array, Compact.unpackArrayFrom, if_neg (by decide),
      if_pos (by simp only [List.length_append, preC_len]; omega)]
    rfl
  have f1 : Compact.readFloat32 (preC ++ junk) 64 = .ok (1065353216, 68) := by
    rw [Compact.readFloat32, if_pos (by simp only [List.length_append, preC_len]; omega),
      hsl76 junk 64 4 (by omega), preC_bytes]
    rfl
  have u7 : Compact.readUint32 (preC ++ junk) 68 = (0, 72) := by
    rw [Compact.readUint32, Compact.readUint, hsl76 junk 68 4 (by omega), preC_bytes]
    decide
  have u8 : Compact.readUint8 (preC ++ junk) 72 = (1, 73) := by
    rw [Compact.readUint8, Compact.readUint, hsl76 junk 72 1 (by omega), preC_bytes]
    decide
  have u9 : Compact.readUint8 (preC ++ junk) 73 = (1, 74) := by
    rw [Compact.readUint8, Compact.readUint, hsl76 junk 73 1 (by omega), preC_bytes]
    decide
  have u10 : Compact.readUint8 (preC ++ junk) 74 = (0, 75) := by
    rw [Compact.readUint8, Compact.readUint, hsl76 junk 74 1 (by omega), preC_bytes]
    decide
  have u11 : Compact.readUint8 (preC ++ junk) 75 = (0, 76) := by
    rw [Compact.readUint8, Compact.readUint, hsl76 junk 75 1 (by omega), preC_bytes]
    decide
  simp only [Compact.readMetaData, u1, u2, u3, u4, u5, u6, a1, a2, f1, u7, u8, u9, u10,
    u11, bind, Except.bind]
  rfl

theorem rnm_preC_junk (junk : List Nat) :
    Compact.readNextModule (preC ++ junk) 32 = .ok (some ⟨meta44, []⟩, 0) := by
  have hb : Compact.readBeamData (preC ++ junk) meta44 76 = .ok (some []) := by
    rw [Compact.readBeamData]
    rfl
  simp only [Compact.readNextModule, rmd_preC_junk junk, hb, bind, Except.bind]

theorem pm_preC_junk (junk : List Nat) :
    Compact.parseModules (preC ++ junk) ((preC ++ junk).length + 1) 32 44 =
      .ok (some [⟨meta44, []⟩]) := by
  have h2 : Compact.parseModules (preC ++ junk) ((preC ++ junk).length)
      (32 + (44 : Int).toNat) 0 = .ok (some []) := by
    rw [show (preC ++ junk).length = 75 + junk.length + 1 from by
      simp only [List.length_append, preC_len]
      omega]
    rw [Compact.parseModules]
    rw [if_neg (by decide)]
  rw [Compact.parseModules]
  rw [if_pos (by decide)]
  rw [rnm_preC_junk junk]
  simp only [h2]

/-- Every read of `parse_payload` on `preC` lands inside its 76 bytes, so
appended trailing bytes are never looked at and never checked. -/
theorem parse_preC_junk (junk : List Nat) :
    Compact.parsePayload (preC ++ junk) = .ok (some rec44) := by
  simp only [Compact.parsePayload, readHeader_preC_junk junk, pm_preC_junk junk, bind,
    Except.bind]
  rfl

theorem parse_preC : Compact.parsePayload preC = .ok (some rec44) := by
  have h := parse_preC_junk []
  rw [List.append_nil] at h
  exact h

set_option maxRecDepth 10000 in
/-- `parse_payload` on the distance-less payload: `_read_beam_data` returns
`None` and `module_data.update(None)` raises `TypeError`. -/
theorem parse_preCbad : Compact.parsePayload preCbad = Except.error PyErr.typeErr := by
  rw [preCbad_bytes]
  rfl

/-- `_verify_and_extract_payload` accepts the bad telegram: its envelope
and CRC are valid. -/
theorem verify_telCbad : Compact.verifyAndExtractPayload telCbad = some preCbad := by
  have hlen80 : telCbad.length = 80 := by rw [telCbad_bytes]; rfl
  have htake4 : telCbad.take 4 = [2, 2, 2, 2] := by rw [telCbad_bytes]; decide
  have htake76 : telCbad.take 76 = preCbad := by rw [telCbad_bytes, preCbad_bytes]; decide
  have hdrop76 : telCbad.drop 76 = [194, 12, 143, 5] := by rw [telCbad_bytes]; decide
  rw [Compact.verifyAndExtractPayload, hlen80]
  rw [show (80 - 4 : Nat) = 76 from rfl]
  rw [htake76, hdrop76, crc_preCbad]
  rw [if_neg (by rw [htake4]; decide), if_neg (by decide)]

/-- C4: the Compact parser does not fail a distance-less module with a
`MissingDistance` failure value: `_read_beam_data` returns `None`,
`_read_next_module` runs `module_data.update(None)`, and the telegram
aborts with `TypeError`. -/
theorem c4_missing_distance_type_error :
    Compact.parsePayload preCbad = Except.error PyErr.typeErr :=
  parse_preCbad

/-- C3: a telegram whose envelope and CRC are valid but whose payload
fails to parse terminates `receive_segments` abnormally (the `TypeError`
propagates out of the loop); the failing telegram is not skipped. -/
theorem c3_receive_segments_aborts :
    Compact.receiveSegments (fun _ => some telCbad) 1 = Except.error PyErr.typeErr := by
  rw [Compact.receiveSegments]
  rw [show (1 : Nat) = 0 + 1 from rfl]
  rw [Compact.receiveLoop]
  simp only [verify_telCbad, parse_preCbad, bind, Except.bind]

/-- C6 (amended): `parse_payload` performs no cumulative-size check:
appending arbitrary trailing bytes to the one-module payload `preC` — so
that the declared module sizes no longer match the bytes remaining after
the header — leaves the parse result unchanged. -/
theorem c6_trailing_bytes_unchecked (junk : List Nat) :
    Compact.parsePayload (preC ++ junk) = Compact.parsePayload preC := by
  rw [parse_preC_junk junk, parse_preC]

/-- Counterexample to C6 as stated: five junk bytes appended to `preC`
make the declared sizes (44 plus the 32-byte header) differ from the
payload length (81), yet the parser still returns a segment record. -/
theorem c6_counterexample :
    Compact.parsePayload (preC ++ [7, 7, 7, 7, 7]) = .ok (some rec44) ∧
      leDecode (pySlice (preC ++ [7, 7, 7, 7, 7]) 28 4) + 32 ≠
        (preC ++ [7, 7, 7, 7, 7]).length :=
  ⟨parse_preC_junk [7, 7, 7, 7, 7], by rw [preC_bytes]; decide⟩

/-! Helpers shared by several claim proofs. -/

theorem wf_payload42 : MsgSE.wfPayload [42] := ⟨by decide, by decide, by decide⟩

theorem wf_compact44 : CompactSE.wfCompact h20c [(0, module44)] := by
  refine ⟨by decide, by decide, ?_, by decide⟩
  show 40 + 28 * 0 ≤ module44.length ∧ 0 < 2 ^ 32 ∧ module44.length < 2 ^ 32 ∧
      (∀ b ∈ module44, b < 256) ∧ pySlice module44 20 4 = le4 0 ∧
      pySlice module44 (36 + 28 * 0) 4 = le4 (CompactSE.sizeHead []) ∧ CompactSE.chainOk []
  exact ⟨by decide, by decide, by decide, by decide, by decide, by decide, trivial⟩

theorem MsgSE.oneShot (payload : List Nat) (hwf : MsgSE.wfPayload payload) :
    MsgSE.extract MsgSE.initState (MsgSE.mkTelegram payload) =
      ([MsgSE.mkTelegram payload], ⟨[], .stx, payload.length⟩) := by
  have h := MsgSE.stepStx payload hwf (payload.length + 12) (le_refl _)
  rw [MsgSE.take_eq_self] at h
  rw [MsgSE.extract]
  show MsgSE.process ⟨[] ++ MsgSE.mkTelegram payload, .stx, 0⟩ = _
  rw [List.nil_append, h, if_pos rfl, if_pos rfl]

theorem CompactSE.oneShotC (h20 : List Nat) (mods : List (Nat × List Nat))
    (hwf : CompactSE.wfCompact h20 mods) :
    (CompactSE.extract CompactSE.initState (CompactSE.mkTelegram h20 mods)).1 =
      [CompactSE.mkTelegram h20 mods] := by
  obtain ⟨st', hproc, -⟩ := CompactSE.stepStxC h20 mods hwf
    (36 + (CompactSE.modBytes mods).length) (le_refl _)
  rw [CompactSE.takeC_eq_self h20 mods hwf.1] at hproc
  rw [CompactSE.extract]
  show (CompactSE.process ⟨[] ++ CompactSE.mkTelegram h20 mods, .stx, 0, 0⟩).1 = _
  rw [List.nil_append, hproc, if_pos rfl]

theorem MsgSE.stx_discard (buf data : List Nat) (sz : Nat)
    (hf : findSub MsgSE.STXM (buf ++ data) = none)
    (hlen : 4 ≤ (buf ++ data).length) :
    MsgSE.extract ⟨buf, .stx, sz⟩ data = ([], ⟨[], .stx, sz⟩) := by
  rw [MsgSE.extract]
  rw [MsgSE.process]
  simp only [hf, if_pos hlen]

theorem CompactSE.stxC_discard (buf data : List Nat) (mp ps : Nat)
    (hf : findSub CompactSE.DELIM (buf ++ data) = none)
    (hlen : 8 ≤ (buf ++ data).length) :
    CompactSE.extract ⟨buf, .stx, mp, ps⟩ data = ([], ⟨[], .stx, mp, ps⟩) := by
  rw [CompactSE.extract]
  rw [CompactSE.process]
  simp only [hf, if_pos hlen]

theorem MsgSE.init_fix : MsgSE.process MsgSE.initState = ([], MsgSE.initState) := by
  show MsgSE.process ⟨[], .stx, 0⟩ = _
  rw [MsgSE.process]
  rfl

theorem CompactSE.initC_fix : CompactSE.process CompactSE.initState =
    ([], CompactSE.initState) := by
  show CompactSE.process ⟨[], .stx, 0, 0⟩ = _
  rw [CompactSE.process]
  rfl

theorem MsgSE.applyCalls_fix :
    ∀ (cs : List (List Nat)) (st : MsgSE.St), MsgSE.process st = ([], st) →
      MsgSE.process (applyCalls MsgSE.extract st cs) =
        ([], applyCalls MsgSE.extract st cs) := by
  intro cs
  induction cs with
  | nil => intro st h; exact h
  | cons c cs ih =>
    intro st h
    show MsgSE.process (applyCalls MsgSE.extract (MsgSE.extract st c).2 cs) = _
    apply ih
    rw [MsgSE.extract]
    exact MsgSE.process_fix _

theorem CompactSE.applyCalls_fixC :
    ∀ (cs : List (List Nat)) (st : CompactSE.St), CompactSE.process st = ([], st) →
      CompactSE.process (applyCalls CompactSE.extract st cs) =
        ([], applyCalls CompactSE.extract st cs) := by
  intro cs
  induction cs with
  | nil => intro st h; exact h
  | cons c cs ih =>
    intro st h
    show CompactSE.process (applyCalls CompactSE.extract (CompactSE.extract st c).2 cs) = _
    apply ih
    rw [CompactSE.extract]
    exact CompactSE.processC_fix _

/-! Claim theorems. -/

/-- C7: splitting a well-formed telegram of either format into 3-byte
chunks and feeding them to a fresh framer yields, per call, the empty list
for every call but the last and the byte-identical telegram on the last
call — the same total output as feeding the telegram whole in one call. -/
theorem c7_chunked_equals_whole :
    (∀ payload : List Nat, MsgSE.wfPayload payload →
      (feedAll MsgSE.extract MsgSE.initState (chunk3 (MsgSE.mkTelegram payload))).1 =
        List.replicate ((chunk3 (MsgSE.mkTelegram payload)).length - 1) [] ++
          [[MsgSE.mkTelegram payload]] ∧
      (MsgSE.extract MsgSE.initState (MsgSE.mkTelegram payload)).1 =
        [MsgSE.mkTelegram payload]) ∧
    (∀ (h20 : List Nat) (mods : List (Nat × List Nat)), CompactSE.wfCompact h20 mods →
      (feedAll CompactSE.extract CompactSE.initState
          (chunk3 (CompactSE.mkTelegram h20 mods))).1 =
        List.replicate ((chunk3 (CompactSE.mkTelegram h20 mods)).length - 1) [] ++
          [[CompactSE.mkTelegram h20 mods]] ∧
      (CompactSE.extract CompactSE.initState (CompactSE.mkTelegram h20 mods)).1 =
        [CompactSE.mkTelegram h20 mods]) := by
  constructor
  · intro payload hwf
    refine ⟨?_, (MsgSE.oneShot payload hwf).symm ▸ rfl⟩
    have h := MsgSE.feedLoop payload hwf (payload.length + 12) 0 (by omega) (by omega)
    rw [List.drop_zero] at h
    have h0 : MsgSE.restState payload 0 = MsgSE.initState := by
      rw [MsgSE.restState, if_pos (by omega)]
      rfl
    rw [h0] at h
    exact h
  · intro h20 mods hwf
    refine ⟨?_, CompactSE.oneShotC h20 mods hwf⟩
    have hrest : CompactSE.Rest h20 mods 0 CompactSE.initState :=
      CompactSE.Rest.stx 0 (by omega)
    have h := CompactSE.feedLoopC h20 mods hwf (36 + (CompactSE.modBytes mods).length) 0
      CompactSE.initState (by omega) (by omega) hrest
    rw [List.drop_zero] at h
    exact h

/-- Witness for C7 at the one-byte MsgPack payload `[42]` and the
one-module Compact telegram. -/
theorem c7_chunked_equals_whole_witness :
    MsgSE.wfPayload [42] ∧ CompactSE.wfCompact h20c [(0, module44)] ∧
    ((feedAll MsgSE.extract MsgSE.initState (chunk3 (MsgSE.mkTelegram [42]))).1 =
        List.replicate ((chunk3 (MsgSE.mkTelegram [42])).length - 1) [] ++
          [[MsgSE.mkTelegram [42]]] ∧
      (MsgSE.extract MsgSE.initState (MsgSE.mkTelegram [42])).1 =
        [MsgSE.mkTelegram [42]]) ∧
    ((feedAll CompactSE.extract CompactSE.initState
          (chunk3 (CompactSE.mkTelegram h20c [(0, module44)]))).1 =
        List.replicate ((chunk3 (CompactSE.mkTelegram h20c [(0, module44)])).length - 1)
          [] ++ [[CompactSE.mkTelegram h20c [(0, module44)]]] ∧
      (CompactSE.extract CompactSE.initState
          (CompactSE.mkTelegram h20c [(0, module44)])).1 =
        [CompactSE.mkTelegram h20c [(0, module44)]]) :=
  ⟨wf_payload42, wf_compact44, c7_chunked_equals_whole.1 [42] wf_payload42,
    c7_chunked_equals_whole.2 h20c [(0, module44)] wf_compact44⟩

/-- C8: every byte slice a framer ever emits is a CRC-valid telegram of
its format — for MsgPack the CRC over the payload between the 8-byte
prefix and the final 4 bytes, for Compact the CRC over everything before
the final 4 bytes, each matching the little-endian u32 in those final four
bytes. -/
theorem c8_emitted_crc_valid :
    (∀ (st : MsgSE.St) (data : List Nat), ∀ pkg ∈ (MsgSE.extract st data).1,
        12 ≤ pkg.length ∧
          leDecode (pkg.drop (pkg.length - 4)) =
            crc32 (pySlice pkg 8 (pkg.length - 12))) ∧
    (∀ (st : CompactSE.St) (data : List Nat), ∀ pkg ∈ (CompactSE.extract st data).1,
        36 ≤ pkg.length ∧
          leDecode (pkg.drop (pkg.length - 4)) = crc32 (pkg.take (pkg.length - 4))) := by
  constructor
  · intro st data pkg hpkg
    rw [MsgSE.extract] at hpkg
    exact MsgSE.process_crcOk _ pkg hpkg
  · intro st data pkg hpkg
    rw [CompactSE.extract] at hpkg
    exact CompactSE.processC_crcOk _ pkg hpkg

/-- Witness for C8 on the emitted MsgPack telegram for payload `[42]`. -/
theorem c8_emitted_crc_valid_witness :
    telM ∈ (MsgSE.extract MsgSE.initState telM).1 ∧
      12 ≤ telM.length ∧
        leDecode (telM.drop (telM.length - 4)) =
          crc32 (pySlice telM 8 (telM.length - 12)) := by
  have hmem : telM ∈ (MsgSE.extract MsgSE.initState telM).1 := by
    show telM ∈ (MsgSE.extract MsgSE.initState (MsgSE.mkTelegram [42])).1
    rw [MsgSE.oneShot [42] wf_payload42]
    exact List.mem_singleton.mpr rfl
  exact ⟨hmem, c8_emitted_crc_valid.1 MsgSE.initState telM telM hmem⟩

/-- C10: after any finite sequence of `extract_data_packages` calls from a
fresh extractor, a further call on the empty byte string returns no
packages and leaves every instance field unchanged, for both framers. -/
theorem c10_empty_call_fixpoint :
    (∀ cs : List (List Nat),
        MsgSE.extract (applyCalls MsgSE.extract MsgSE.initState cs) [] =
          ([], applyCalls MsgSE.extract MsgSE.initState cs)) ∧
    (∀ cs : List (List Nat),
        CompactSE.extract (applyCalls CompactSE.extract CompactSE.initState cs) [] =
          ([], applyCalls CompactSE.extract CompactSE.initState cs)) := by
  constructor
  · intro cs
    have h := MsgSE.applyCalls_fix cs MsgSE.initState MsgSE.init_fix
    rw [MsgSE.extract, List.append_nil]
    exact h
  · intro cs
    have h := CompactSE.applyCalls_fixC cs CompactSE.initState CompactSE.initC_fix
    rw [CompactSE.extract, List.append_nil]
    exact h

/-- C2 (amended): when `_wait_for_stx` finds no delimiter in a buffer at
least as long as the delimiter, both framers return no telegrams and
discard the buffer entirely — they retain zero bytes, not the trailing
`len(delimiter) - 1` bytes. -/
theorem c2_no_delimiter_discards_buffer :
    (∀ (buf data : List Nat) (sz : Nat),
        findSub MsgSE.STXM (buf ++ data) = none → 4 ≤ (buf ++ data).length →
        MsgSE.extract ⟨buf, .stx, sz⟩ data = ([], ⟨[], .stx, sz⟩)) ∧
    (∀ (buf data : List Nat) (mp ps : Nat),
        findSub CompactSE.DELIM (buf ++ data) = none → 8 ≤ (buf ++ data).length →
        CompactSE.extract ⟨buf, .stx, mp, ps⟩ data = ([], ⟨[], .stx, mp, ps⟩)) :=
  ⟨MsgSE.stx_discard, CompactSE.stxC_discard⟩

/-- Witness for C2 (amended): a buffer of four junk bytes is discarded
whole by each framer. -/
theorem c2_no_delimiter_discards_buffer_witness :
    findSub MsgSE.STXM ([9, 9] ++ [9, 9]) = none ∧
    MsgSE.extract ⟨[9, 9], .stx, 0⟩ [9, 9] = ([], ⟨[], .stx, 0⟩) ∧
    findSub CompactSE.DELIM ([9, 9, 9, 9] ++ [9, 9, 9, 9]) = none ∧
    CompactSE.extract ⟨[9, 9, 9, 9], .stx, 0, 0⟩ [9, 9, 9, 9] =
      ([], ⟨[], .stx, 0, 0⟩) :=
  ⟨by decide,
   c2_no_delimiter_discards_buffer.1 [9, 9] [9, 9] 0 (by decide) (by decide),
   by decide,
   c2_no_delimiter_discards_buffer.2 [9, 9, 9, 9] [9, 9, 9, 9] 0 0 (by decide) (by decide)⟩

set_option maxRecDepth 2000 in
/-- Counterexample to C2 as stated: a delimiter straddling a chunk
boundary is lost.  Feeding four junk bytes plus the first delimiter half,
then the rest of the telegram, returns nothing on either call for both
framers, although feeding the same bytes in one call returns the MsgPack
telegram. -/
theorem c2_straddled_delimiter_lost :
    (feedAll MsgSE.extract MsgSE.initState
        [[65, 65, 65, 65] ++ telM.take 2, telM.drop 2]).1 = [[], []] ∧
    (MsgSE.extract MsgSE.initState (([65, 65, 65, 65] ++ telM.take 2) ++ telM.drop 2)).1 =
      [telM] ∧
    (feedAll CompactSE.extract CompactSE.initState
        [[65, 65, 65, 65, 65, 65, 65, 65] ++ telC.take 4, telC.drop 4]).1 = [[], []] := by
  refine ⟨?_, ?_, ?_⟩
  · have e1 : MsgSE.extract ⟨[], .stx, 0⟩ ([65, 65, 65, 65] ++ telM.take 2) =
        ([], ⟨[], .stx, 0⟩) :=
      MsgSE.stx_discard [] ([65, 65, 65, 65] ++ telM.take 2) 0 (by decide) (by decide)
    have e2 : MsgSE.extract ⟨[], .stx, 0⟩ (telM.drop 2) = ([], ⟨[], .stx, 0⟩) :=
      MsgSE.stx_discard [] (telM.drop 2) 0 (by decide) (by decide)
    show (feedAll MsgSE.extract ⟨[], .stx, 0⟩
        [[65, 65, 65, 65] ++ telM.take 2, telM.drop 2]).1 = [[], []]
    rw [feedAll, feedAll, feedAll]
    simp only [e1, e2]
  · have hcat : ([65, 65, 65, 65] ++ telM.take 2) ++ telM.drop 2 =
        [65, 65, 65, 65] ++ telM := by
      rw [List.append_assoc, List.take_append_drop]
    rw [hcat]
    rw [MsgSE.extract]
    show (MsgSE.process ⟨[] ++ ([65, 65, 65, 65] ++ telM), .stx, 0⟩).1 = [telM]
    rw [List.nil_append]
    rw [MsgSE.process]
    have hf : findSub MsgSE.STXM ([65, 65, 65, 65] ++ telM) = some 4 := by decide
    have hdrop : ([65, 65, 65, 65] ++ telM).drop 4 = telM := by decide
    simp only [hf, hdrop]
    have hstep := MsgSE.stepSize [42] wf_payload42 ([42].length + 12) (by omega) (le_refl _)
    rw [MsgSE.take_eq_self] at hstep
    show (MsgSE.process ⟨MsgSE.mkTelegram [42], .size, 0⟩).1 = [MsgSE.mkTelegram [42]]
    rw [hstep]
    simp
  · have ht4 : telC.take 4 = [2, 2, 2, 2] := by rw [telC_bytes]; decide
    have hd4 : telC.drop 4 = [1, 0, 0, 0, 77, 1, 0, 0, 0, 0, 0, 0, 188, 1, 0, 0, 0, 0, 0,
        0, 1, 0, 0, 0, 44, 0, 0, 0, 154, 2, 0, 0, 0, 0, 0, 0, 231, 3, 0, 0, 0, 0, 0, 0,
        43, 2, 0, 0, 0, 0, 0, 0, 0, 0, 0, 0, 2, 0, 0, 0, 0, 0, 128, 63, 0, 0, 0, 0, 1, 1,
        0, 0, 245, 102, 77, 4] := by rw [telC_bytes]; decide
    have e1 : CompactSE.extract ⟨[], .stx, 0, 0⟩
        ([65, 65, 65, 65, 65, 65, 65, 65] ++ telC.take 4) = ([], ⟨[], .stx, 0, 0⟩) :=
      CompactSE.stxC_discard [] ([65, 65, 65, 65, 65, 65, 65, 65] ++ telC.take 4) 0 0
        (by rw [ht4]; decide) (by rw [ht4]; decide)
    have e2 : CompactSE.extract ⟨[], .stx, 0, 0⟩ (telC.drop 4) = ([], ⟨[], .stx, 0, 0⟩) :=
      CompactSE.stxC_discard [] (telC.drop 4) 0 0 (by rw [hd4]; decide)
        (by rw [hd4]; decide)
    show (feedAll CompactSE.extract ⟨[], .stx, 0, 0⟩
        [[65, 65, 65, 65, 65, 65, 65, 65] ++ telC.take 4, telC.drop 4]).1 = [[], []]
    rw [feedAll, feedAll, feedAll]
    simp only [e1, e2]

/-- C5 (amended): the rewriter is not idempotent.  Whenever
`replace_keywords_in_dict` succeeds on a nonempty map (integer keys in
the table), its output is a map under string keys, and a second
application raises `KeyError` on the first key; in particular applying
the rewriter twice differs from applying it once. -/
theorem c5_second_pass_raises (entries : List (MsgUtil.MKey × MsgUtil.MVal))
    (res : MsgUtil.MVal) (hne : entries ≠ [])
    (hok : MsgUtil.replaceKeywords (MsgUtil.MVal.map entries) = .ok res) :
    MsgUtil.replaceKeywords res = Except.error PyErr.keyErr ∧
      Except.bind (MsgUtil.replaceKeywords (MsgUtil.MVal.map entries))
          MsgUtil.replaceKeywords ≠
        MsgUtil.replaceKeywords (MsgUtil.MVal.map entries) := by
  obtain ⟨⟨k, v⟩, rest, rfl⟩ := List.exists_cons_of_ne_nil hne
  have hok0 := hok
  rw [MsgUtil.replaceKeywords] at hok
  cases hre : MsgUtil.replaceEntries ((k, v) :: rest) with
  | error e =>
    rw [hre] at hok
    simp [Except.map] at hok
  | ok out =>
    rw [hre] at hok
    simp only [Except.map] at hok
    injection hok with hok
    rw [MsgUtil.replaceEntries] at hre
    cases hn : MsgUtil.lutKey k with
    | error e =>
      rw [hn] at hre
      simp only [bind, Except.bind] at hre
      exact Except.noConfusion hre
    | ok name =>
      rw [hn] at hre
      simp only [bind, Except.bind] at hre
      cases hv : MsgUtil.rewriteValue name v with
      | error e =>
        rw [hv] at hre
        exact Except.noConfusion hre
      | ok v2 =>
        rw [hv] at hre
        simp only at hre
        cases hr : MsgUtil.replaceEntries rest with
        | error e =>
          rw [hr] at hre
          exact Except.noConfusion hre
        | ok rest2 =>
          rw [hr] at hre
          simp only at hre
          injection hre with hre
          have h2 : MsgUtil.replaceKeywords res = Except.error PyErr.keyErr := by
            rw [← hok, ← hre]
            rw [MsgUtil.replaceKeywords, MsgUtil.replaceEntries]
            rw [show MsgUtil.lutKey (MsgUtil.MKey.s name) = Except.error PyErr.keyErr
              from rfl]
            rfl
          refine ⟨h2, ?_⟩
          rw [hok0]
          intro hcon
          rw [show Except.bind (Except.ok res) MsgUtil.replaceKeywords =
            MsgUtil.replaceKeywords res from rfl, h2] at hcon
          exact Except.noConfusion hcon

theorem c5_once : MsgUtil.replaceKeywords
    (MsgUtil.MVal.map [(MsgUtil.MKey.i 17, MsgUtil.MVal.int 5)]) =
    .ok (MsgUtil.MVal.map [(MsgUtil.MKey.s "data", MsgUtil.MVal.int 5)]) := by
  rw [MsgUtil.replaceKeywords, MsgUtil.replaceEntries]
  rfl

/-- Witness for C5 (amended) at the one-entry map `{0x11: 5}`. -/
theorem c5_second_pass_raises_witness :
    ([(MsgUtil.MKey.i 17, MsgUtil.MVal.int 5)] ≠
        ([] : List (MsgUtil.MKey × MsgUtil.MVal))) ∧
    MsgUtil.replaceKeywords (MsgUtil.MVal.map [(MsgUtil.MKey.i 17, MsgUtil.MVal.int 5)]) =
      .ok (MsgUtil.MVal.map [(MsgUtil.MKey.s "data", MsgUtil.MVal.int 5)]) ∧
    MsgUtil.replaceKeywords
        (MsgUtil.MVal.map [(MsgUtil.MKey.s "data", MsgUtil.MVal.int 5)]) =
      Except.error PyErr.keyErr :=
  ⟨by simp, c5_once,
    (c5_second_pass_raises [(MsgUtil.MKey.i 17, MsgUtil.MVal.int 5)]
      (MsgUtil.MVal.map [(MsgUtil.MKey.s "data", MsgUtil.MVal.int 5)])
      (by simp) c5_once).1⟩

/-- Counterexample to C5 as stated: on `{0x11: 5}` one application of the
rewriter succeeds, but rewriting the result again raises `KeyError`, so
twice is not once. -/
theorem c5_counterexample :
    MsgUtil.replaceKeywords (MsgUtil.MVal.map [(MsgUtil.MKey.i 17, MsgUtil.MVal.int 5)]) =
      .ok (MsgUtil.MVal.map [(MsgUtil.MKey.s "data", MsgUtil.MVal.int 5)]) ∧
    MsgUtil.replaceKeywords
        (MsgUtil.MVal.map [(MsgUtil.MKey.s "data", MsgUtil.MVal.int 5)]) =
      Except.error PyErr.keyErr ∧
    Except.bind
        (MsgUtil.replaceKeywords (MsgUtil.MVal.map [(MsgUtil.MKey.i 17, MsgUtil.MVal.int 5)]))
        MsgUtil.replaceKeywords ≠
      MsgUtil.replaceKeywords (MsgUtil.MVal.map [(MsgUtil.MKey.i 17, MsgUtil.MVal.int 5)]) := by
  have hsecond : MsgUtil.replaceKeywords
      (MsgUtil.MVal.map [(MsgUtil.MKey.s "data", MsgUtil.MVal.int 5)]) =
      Except.error PyErr.keyErr := by
    rw [MsgUtil.replaceKeywords, MsgUtil.replaceEntries]
    rfl
  refine ⟨c5_once, hsecond, ?_⟩
  rw [c5_once]
  intro hcon
  rw [show Except.bind
      (Except.ok (MsgUtil.MVal.map [(MsgUtil.MKey.s "data", MsgUtil.MVal.int 5)]))
      MsgUtil.replaceKeywords =
    MsgUtil.replaceKeywords
      (MsgUtil.MVal.map [(MsgUtil.MKey.s "data", MsgUtil.MVal.int 5)]) from rfl,
    hsecond] at hcon
  exact Except.noConfusion hcon

/-- Witness for C9: a two-element u16 channel decodes to two values, and
the same channel with a byte missing fails with `struct.error`. -/
theorem c9_channel_decoders_witness :
    (∃ out, DecodeUtil.decodeChannel ⟨2, [1, 0, 2, 0]⟩ .u16 = .ok out ∧ out.length = 2 ∧
      ∀ i, i < 2 → out.getD i 0 = DecodeUtil.ChFormat.dec .u16
        (pySlice (DecodeUtil.Channel.mk 2 [1, 0, 2, 0]).data
          (i * DecodeUtil.ChFormat.sizeB .u16) (DecodeUtil.ChFormat.sizeB .u16))) ∧
    DecodeUtil.decodeChannel ⟨2, [1, 0, 2]⟩ .u16 = .error .structErr :=
  ⟨(c9_channel_decoders ⟨2, [1, 0, 2, 0]⟩ .u16 2 rfl).1 (by decide),
   (c9_channel_decoders ⟨2, [1, 0, 2]⟩ .u16 2 rfl).2 (by decide)⟩

end Lidar
